import Mathlib

/-!
# Look-up of multi-layer perceptrons: `CLookUp_ANN`

A shallow embedding of `Common/src/toolboxes/multilayer_perceptron/CLookUp_ANN.cpp`
(`FindVariableIndices`, `PredictANN`, `CheckUseOfInputs`, `CheckUseOfOutputs`) and the
properties of the query and coverage-check paths.

Conventions of the embedding.

* The query path is embedded twice. In the first embedding `su2double` values are exact
  rationals; the only non-finite values that the query path can then produce come from the
  division by the width `max - min` of a training range, and they are kept apart in `su2val`
  (`inf`, `nan`). It serves the statements about concrete finite queries and about the
  order of the writes. In the second embedding (namespace `IEEE`) a `su2double` is a finite
  number, an infinity or a NaN, the comparisons are those of doubles and the rounded
  arithmetic is a parameter. It serves the statements about every query: the range test,
  the returned status, the midpoint query and the storage that a call leaves unchanged.
* `su2vector`/`std::vector` objects are lists; an access outside the bounds of a vector has
  no defined behaviour in the source and makes the embedded function return `none`.
* `SU2_MPI::Error(message, ...)` is `Except.error message`.
* A `for (i = 0u; i < n; i++)` loop is `forLoop n body`.
-/

namespace MLPToolbox

/-! ## Numbers -/

/-- Values of type `su2double`, idealised as exact rationals: finite values, no NaN, no
rounding. The statements over this type are about queries and ranges made of such values;
the statements about every query are made over `IEEE.su2double`. -/
abbrev su2double := ℚ

/-- Result of a `su2double` expression that contains a division: a finite value, an
infinity (non-zero numerator over zero) or a NaN (zero over zero). -/
inductive su2val where
  | fin (q : su2double)
  | inf
  | nan
deriving DecidableEq

namespace su2val

/-- Expression `pow(a / b, 2)`: for `b = 0` the quotient is `±inf` (`a ≠ 0`) or NaN
(`a = 0`), and its square is `+inf` or NaN. -/
def pow2div (a b : su2double) : su2val :=
  if b = 0 then (if a = 0 then nan else inf) else fin ((a / b) ^ 2)

/-- Sum of two values, one of them a square (so no infinity is negative). -/
def add : su2val → su2val → su2val
  | fin a, fin b => fin (a + b)
  | nan, _ => nan
  | _, nan => nan
  | _, _ => inf

/-- Comparison `sqrt(d) < D`. For finite `d ≥ 0` and finite `D` it holds exactly when
`0 < D` and `d < D * D`; the root of a negative number, of an infinity or of a NaN is
never below anything, and nothing is below a NaN. The root is not rounded (the scan of
`IEEE.scanBody` takes the rounded root as a parameter). -/
def sqrt_lt : su2val → su2val → Bool
  | fin d, fin D => decide (0 ≤ d) && decide (0 < D) && decide (d < D * D)
  | fin d, inf => decide (0 ≤ d)
  | _, _ => false

end su2val

/-! ## Loops -/

/-- Loop `for (i = 0u; i < n; i++) s = body(i, s)`, stopping at the first failure. -/
def forLoop {σ : Type} (n : Nat) (body : Nat → σ → Option σ) (s : σ) : Option σ :=
  (List.range n).foldlM (fun acc i => body i acc) s

/-! ## Networks and the input-output map -/

/-- Modelled from the spec: the class `CNeuralNetwork`, whose header and implementation are
not part of the sources. It carries the names of inputs and outputs, the `[min, max]`
training range of every input and the forward evaluation, which is a parameter here. -/
structure CNeuralNetwork where
  /-- Names of the inputs, `GetInputName(i)`. -/
  input_names : List String
  /-- Names of the outputs, `GetOutputName(i)`. -/
  output_names : List String
  /-- Training ranges `(min, max)` of the inputs, `GetInputNorm(i)`. -/
  input_norm : List (su2double × su2double)
  /-- Values of all outputs that `Predict` computes from the raw inputs. -/
  forward : List su2double → List su2double

namespace CNeuralNetwork

/-- Number of inputs. -/
def GetnInputs (net : CNeuralNetwork) : Nat := net.input_names.length

/-- Number of outputs. -/
def GetnOutputs (net : CNeuralNetwork) : Nat := net.output_names.length

/-- Name of input `i`. -/
def GetInputName (net : CNeuralNetwork) (i : Nat) : Option String := net.input_names[i]?

/-- Name of output `i`. -/
def GetOutputName (net : CNeuralNetwork) (i : Nat) : Option String := net.output_names[i]?

/-- Training range of input `i`. -/
def GetInputNorm (net : CNeuralNetwork) (i : Nat) : Option (su2double × su2double) :=
  net.input_norm[i]?

end CNeuralNetwork

/-- Modelled from the spec: one entry of the class `CIOMap` (not part of the sources): the
index of a participating network, its input mapping and its output mapping, both lists of
pairs `(requested index, network-local index)` as `FindVariableIndices` makes them. -/
structure IOMapEntry where
  /-- Index of the network in the collection. -/
  MLP_index : Nat
  /-- Pairs `(requested input index, network input index)`. -/
  Input_Map : List (Nat × Nat)
  /-- Pairs `(requested output index, network output index)`. -/
  Output_Map : List (Nat × Nat)
deriving DecidableEq

/-- Modelled from the spec: the class `CIOMap`, a list of entries in scan order. -/
abbrev CIOMap := List IOMapEntry

namespace CIOMap

/-- Number of participating networks. -/
def GetNMLPs (m : CIOMap) : Nat := m.length

/-- Network index of entry `i_map`. -/
def GetMLPIndex (m : CIOMap) (i_map : Nat) : Option Nat := (m[i_map]?).map (·.MLP_index)

/-- Input mapping of entry `i_map`. -/
def GetInputMapping (m : CIOMap) (i_map : Nat) : Option (List (Nat × Nat)) :=
  (m[i_map]?).map (·.Input_Map)

/-- Output mapping of entry `i_map`. -/
def GetOutputMapping (m : CIOMap) (i_map : Nat) : Option (List (Nat × Nat)) :=
  (m[i_map]?).map (·.Output_Map)

/-- Number of mapped outputs of entry `i_map`. -/
def GetNMappedOutputs (m : CIOMap) (i_map : Nat) : Option Nat :=
  (m[i_map]?).map (·.Output_Map.length)

/-- Requested output index of the `i`-th mapped output of entry `i_map`. -/
def GetOutputIndex (m : CIOMap) (i_map i : Nat) : Option Nat :=
  (m[i_map]?).bind fun e => (e.Output_Map[i]?).map (·.1)

/-- Network-local output index of the `i`-th mapped output of entry `i_map`. -/
def GetMLPOutputIndex (m : CIOMap) (i_map i : Nat) : Option Nat :=
  (m[i_map]?).bind fun e => (e.Output_Map[i]?).map (·.2)

/-- Inputs of the network of entry `i_map`, gathered from the query vector through the
input mapping of the entry. -/
def GetMLPInputs (m : CIOMap) (i_map : Nat) (inputs : List su2double) :
    Option (List su2double) :=
  (m[i_map]?).bind fun e => e.Input_Map.mapM fun p => inputs[p.1]?

end CIOMap

/-! ## `FindVariableIndices` -/

/-- Body of the inner loop of `FindVariableIndices` (lines 76-79). -/
def findBody (net : CNeuralNetwork) (variable_names : List String) (input : Bool)
    (iVar jVar : Nat) (variable_indices : List (Nat × Nat)) : Option (List (Nat × Nat)) := do
  let ANN_varname ← if input then net.GetInputName iVar else net.GetOutputName iVar
  let name ← variable_names[jVar]?
  if name = ANN_varname then pure (variable_indices ++ [(jVar, iVar)])
  else pure variable_indices

/-- Function `CLookUp_ANN::FindVariableIndices` (lines 66-83). -/
def FindVariableIndices (NeuralNetworks : List CNeuralNetwork) (i_ANN : Nat)
    (variable_names : List String) (input : Bool) : Option (List (Nat × Nat)) := do
  let net ← NeuralNetworks[i_ANN]?
  let nVar := if input then net.GetnInputs else net.GetnOutputs
  forLoop nVar (fun iVar variable_indices =>
    forLoop variable_names.length (findBody net variable_names input iVar) variable_indices) []

/-! ## `PredictANN` -/

/-- Mutable state of one call of `PredictANN`: the output vectors cached inside the
networks by `Predict`, the values behind the output pointers, and the local variables. -/
structure ScanState where
  /-- Output vector cached in every network (read by `GetANNOutput`). -/
  ANN_outputs : List (List su2double)
  /-- Values of the caller-supplied output slots. -/
  outputs : List su2double
  /-- Local `MLP_was_evaluated`. -/
  MLP_was_evaluated : Bool
  /-- Local `distance_to_query`. -/
  distance_to_query : su2val
  /-- Local `i_ANN_nearest`. -/
  i_ANN_nearest : Nat
  /-- Local `i_map_nearest`. -/
  i_map_nearest : Nat
deriving DecidableEq

/-- Modelled from the spec: `CNeuralNetwork::Predict`, which stores the outputs of the
forward evaluation in the network. -/
def Predict (NeuralNetworks : List CNeuralNetwork) (ANN_outputs : List (List su2double))
    (i_ANN : Nat) (ANN_inputs : List su2double) : Option (List (List su2double)) := do
  let net ← NeuralNetworks[i_ANN]?
  if i_ANN < ANN_outputs.length then pure (ANN_outputs.set i_ANN (net.forward ANN_inputs))
  else none

/-- Modelled from the spec: `CNeuralNetwork::GetANNOutput`, output `j` of the last
evaluation of network `i_ANN`. -/
def GetANNOutput (ANN_outputs : List (List su2double)) (i_ANN j : Nat) : Option su2double :=
  (ANN_outputs[i_ANN]?).bind fun o => o[j]?

/-- Body of the loop over the inputs of one network (lines 103-113), on the pair
`(within_range, distance_to_query_i)`, for finite inputs and limits and without rounding
(`IEEE.rangeBody` is the body over all values of a double). -/
def rangeBody (net : CNeuralNetwork) (ANN_inputs : List su2double) (i_input : Nat)
    (acc : Bool × su2val) : Option (Bool × su2val) := do
  let ANN_input_limits ← net.GetInputNorm i_input
  let x ← ANN_inputs[i_input]?
  let within_range :=
    if x < ANN_input_limits.1 ∨ x > ANN_input_limits.2 then false else acc.1
  let middle : su2double := (1 / 2) * (ANN_input_limits.2 + ANN_input_limits.1)
  pure (within_range,
    acc.2.add (su2val.pow2div (x - middle) (ANN_input_limits.2 - ANN_input_limits.1)))

/-- Loop over the inputs of one network (lines 97, 101-114): the flag `within_range` and
the distance `distance_to_query_i`. -/
def rangeLoop (net : CNeuralNetwork) (ANN_inputs : List su2double) : Option (Bool × su2val) :=
  forLoop ANN_inputs.length (rangeBody net ANN_inputs) (true, su2val.fin 0)

/-- Loop that writes the mapped outputs of entry `i_map` (lines 120-123 and 137-140). -/
def writeOutputs (m : CIOMap) (i_map i_ANN : Nat) (ANN_outputs : List (List su2double))
    (outputs : List su2double) : Option (List su2double) := do
  let n ← m.GetNMappedOutputs i_map
  forLoop n (fun i outputs => do
    let k ← m.GetOutputIndex i_map i
    let j ← m.GetMLPOutputIndex i_map i
    let v ← GetANNOutput ANN_outputs i_ANN j
    if k < outputs.length then pure (outputs.set k v) else none) outputs

/-- Body of the scan loop of `PredictANN` (lines 97-131). -/
def scanBody (NeuralNetworks : List CNeuralNetwork) (m : CIOMap) (inputs : List su2double)
    (i_map : Nat) (s : ScanState) : Option ScanState := do
  let i_ANN ← m.GetMLPIndex i_map
  let ANN_inputs ← m.GetMLPInputs i_map inputs
  let net ← NeuralNetworks[i_ANN]?
  let r ← rangeLoop net ANN_inputs
  let s1 ←
    if r.1 then do
      let c ← Predict NeuralNetworks s.ANN_outputs i_ANN ANN_inputs
      let o ← writeOutputs m i_map i_ANN c s.outputs
      pure { s with ANN_outputs := c, outputs := o, MLP_was_evaluated := true }
    else pure s
  if su2val.sqrt_lt r.2 s1.distance_to_query then
    pure { s1 with i_ANN_nearest := i_ANN, distance_to_query := r.2, i_map_nearest := i_map }
  else pure s1

/-- State of `PredictANN` before the scan loop (lines 88-94). -/
def scanInit (ANN_outputs : List (List su2double)) (outputs : List su2double) : ScanState :=
  { ANN_outputs := ANN_outputs, outputs := outputs, MLP_was_evaluated := false,
    distance_to_query := su2val.fin (10 ^ 20), i_ANN_nearest := 0, i_map_nearest := 0 }

/-- Scan loop of `PredictANN` (lines 96-132). -/
def scanLoop (NeuralNetworks : List CNeuralNetwork) (m : CIOMap) (inputs : List su2double)
    (ANN_outputs : List (List su2double)) (outputs : List su2double) : Option ScanState :=
  forLoop m.GetNMLPs (scanBody NeuralNetworks m inputs) (scanInit ANN_outputs outputs)

/-- What a call of `PredictANN` leaves behind: the cached network outputs, the output
slots and the returned status (`0` in range, `1` extrapolated). -/
structure PredictResult where
  /-- Output vector cached in every network. -/
  ANN_outputs : List (List su2double)
  /-- Values of the caller-supplied output slots. -/
  outputs : List su2double
  /-- Returned value. -/
  status : Nat
deriving DecidableEq

/-- Function `CLookUp_ANN::PredictANN` (lines 85-145). -/
def PredictANN (NeuralNetworks : List CNeuralNetwork) (m : CIOMap) (inputs : List su2double)
    (ANN_outputs : List (List su2double)) (outputs : List su2double) :
    Option PredictResult := do
  let s ← scanLoop NeuralNetworks m inputs ANN_outputs outputs
  if !s.MLP_was_evaluated then
    let ANN_inputs ← m.GetMLPInputs s.i_map_nearest inputs
    let c ← Predict NeuralNetworks s.ANN_outputs s.i_ANN_nearest ANN_inputs
    let o ← writeOutputs m s.i_map_nearest s.i_ANN_nearest c s.outputs
    pure { ANN_outputs := c, outputs := o, status := 1 }
  else
    pure { ANN_outputs := s.ANN_outputs, outputs := s.outputs, status := 0 }

/-! ## `CheckUseOfInputs` and `CheckUseOfOutputs` -/

/-- Loops over the selected networks and over the pairs of their mapping (lines 206-214 and
235-245): whether requested index `iVar` is the first component of some pair. -/
def foundLoop (mapping : Nat → Option (List (Nat × Nat))) (nMLPs iVar : Nat) : Option Bool :=
  forLoop nMLPs (fun i_map found => do
    let map ← mapping i_map
    forLoop map.length (fun jVar found => do
      let p ← map[jVar]?
      pure (if p.1 = iVar then true else found)) found) false

/-- Loop over the requested names (lines 205-219 and 234-250): the names that were not
found, and the flag that all names are present. -/
def missingLoop (mapping : Nat → Option (List (Nat × Nat))) (nMLPs : Nat)
    (names : List String) : Option (List String × Bool) :=
  forLoop names.length (fun iVar acc => do
    let found ← foundLoop mapping nMLPs iVar
    if !found then
      let name ← names[iVar]?
      pure (acc.1 ++ [name], false)
    else pure acc) ([], true)

/-- Message of the error (lines 221-223 and 252-254), `head` being `"Inputs "` or
`"Outputs "`. -/
def errorMessage (head : String) (missing : List String) : Option String := do
  let message ← forLoop missing.length (fun iVar message => do
    let v ← missing[iVar]?
    pure (message ++ (v ++ " "))) head
  pure (message ++ "are not present in any loaded ANN.")

/-- Function `CLookUp_ANN::CheckUseOfInputs` (lines 201-226). -/
def CheckUseOfInputs (input_names : List String) (m : CIOMap) : Option (Except String Bool) := do
  let r ← missingLoop m.GetInputMapping m.GetNMLPs input_names
  if r.1.length > 0 then
    let message ← errorMessage "Inputs " r.1
    pure (Except.error message)
  else pure (Except.ok r.2)

/-- Function `CLookUp_ANN::CheckUseOfOutputs` (lines 228-257). -/
def CheckUseOfOutputs (output_names : List String) (m : CIOMap) :
    Option (Except String Bool) := do
  let r ← missingLoop m.GetOutputMapping m.GetNMLPs output_names
  if r.1.length > 0 then
    let message ← errorMessage "Outputs " r.1
    pure (Except.error message)
  else pure (Except.ok r.2)

/-! ## Auxiliary functions used to state and prove the properties -/

/-- Gathered inputs of a network paired with the training range of the same position. -/
def limitPairs (net : CNeuralNetwork) (ANN_inputs : List su2double) :
    List (su2double × su2double × su2double) := ANN_inputs.zip net.input_norm

/-- Every value of the list lies in its range, boundaries included. -/
def inRangeB (l : List (su2double × su2double × su2double)) : Bool :=
  l.all fun q => decide (q.2.1 ≤ q.1) && decide (q.1 ≤ q.2.2)

/-- Sum of the terms `pow((x - middle) / (max - min), 2)` over the list. -/
def distOf (l : List (su2double × su2double × su2double)) : su2val :=
  l.foldl (fun d q => d.add (su2val.pow2div (q.1 - (1 / 2) * (q.2.2 + q.2.1)) (q.2.2 - q.2.1)))
    (su2val.fin 0)

/-- Output slots after the assignments `*outputs[p.1] = out[p.2]` for the pairs of `l`, in
order. -/
def writeAll (out : List su2double) (l : List (Nat × Nat)) (outputs : List su2double) :
    List su2double :=
  l.foldl (fun o p => o.set p.1 (out.getD p.2 0)) outputs

/-- Update of the nearest network at the end of one scan iteration (lines 127-131). -/
def updateNearest (i_map i_ANN : Nat) (d : su2val) (s : ScanState) : ScanState :=
  if su2val.sqrt_lt d s.distance_to_query then
    { s with i_ANN_nearest := i_ANN, distance_to_query := d, i_map_nearest := i_map }
  else s

/-- Evaluation of a network and writing of its mapped outputs (lines 118-123). -/
def evaluateEntry (e : IOMapEntry) (out : List su2double) (s : ScanState) : ScanState :=
  { s with ANN_outputs := s.ANN_outputs.set e.MLP_index out,
           outputs := writeAll out e.Output_Map s.outputs,
           MLP_was_evaluated := true }

/-- Inputs of the network of an entry, gathered from the query vector. -/
def gatherInputs (e : IOMapEntry) (inputs : List su2double) : List su2double :=
  e.Input_Map.map fun p => inputs.getD p.1 0

/-- One iteration of the scan loop for entry `e` at position `i_map`, the network of the
entry being `net`. -/
def scanStep (net : CNeuralNetwork) (inputs : List su2double) (i_map : Nat) (e : IOMapEntry)
    (s : ScanState) : ScanState :=
  updateNearest i_map e.MLP_index (distOf (limitPairs net (gatherInputs e inputs)))
    (if inRangeB (limitPairs net (gatherInputs e inputs)) then
      evaluateEntry e (net.forward (gatherInputs e inputs)) s
    else s)

/-- State after the first `n` iterations of the scan loop. -/
def scanPure (NeuralNetworks : List CNeuralNetwork) (m : CIOMap) (inputs : List su2double)
    (s0 : ScanState) : Nat → ScanState
  | 0 => s0
  | n + 1 =>
    match m[n]? with
    | none => scanPure NeuralNetworks m inputs s0 n
    | some e =>
      match NeuralNetworks[e.MLP_index]? with
      | none => scanPure NeuralNetworks m inputs s0 n
      | some net => scanStep net inputs n e (scanPure NeuralNetworks m inputs s0 n)

/-- Bounds on which the accesses of `PredictANN` for entry `e` rely: the network index is
valid, there is a training range for every gathered input, the requested indices lie inside
the query vector and the output slots, and the mapped network outputs exist. -/
structure EntryOK (NeuralNetworks : List CNeuralNetwork) (inputs : List su2double)
    (nOutputs : Nat) (e : IOMapEntry) (net : CNeuralNetwork) : Prop where
  /-- The entry refers to a loaded network. -/
  net_eq : NeuralNetworks[e.MLP_index]? = some net
  /-- Every gathered input has a training range. -/
  norm_len : e.Input_Map.length ≤ net.input_norm.length
  /-- Requested input indices lie inside the query vector. -/
  in_idx : ∀ p ∈ e.Input_Map, p.1 < inputs.length
  /-- Requested output indices are output slots. -/
  out_idx : ∀ p ∈ e.Output_Map, p.1 < nOutputs
  /-- Mapped network outputs are computed by the forward evaluation. -/
  out_loc : ∀ p ∈ e.Output_Map, ∀ xs, p.2 < (net.forward xs).length

/-- An input-output map that fits the loaded networks, the query vector and the output
slots: every network has a cached output vector and every entry satisfies `EntryOK`. -/
def WellFormed (NeuralNetworks : List CNeuralNetwork) (m : CIOMap) (inputs : List su2double)
    (ANN_outputs : List (List su2double)) (outputs : List su2double) : Prop :=
  ANN_outputs.length = NeuralNetworks.length ∧
    ∀ e ∈ m, ∃ net, EntryOK NeuralNetworks inputs outputs.length e net

/-- Pairs `(j, i)` for the requested names `j` that equal name `i` of the network, by
ascending `j`. -/
def matchesOf (variable_names ANN_names : List String) (i : Nat) : List (Nat × Nat) :=
  ((List.range variable_names.length).filter fun j => variable_names[j]? == ANN_names[i]?).map
    fun j => (j, i)

/-- All pairs of a requested name and an equal network name, by ascending network-local
index and then ascending requested index. -/
def allMatches (variable_names ANN_names : List String) : List (Nat × Nat) :=
  (List.range ANN_names.length).flatMap (matchesOf variable_names ANN_names)

/-- Requested index `i` is the first component of a pair of one of the mappings. -/
def covered (maps : List (List (Nat × Nat))) (i : Nat) : Bool :=
  maps.any fun l => l.any fun p => p.1 == i

/-- Names of the requested indices that no mapping covers, in requested order. -/
def missingNames (names : List String) (maps : List (List (Nat × Nat))) : List String :=
  ((List.range names.length).filter fun i => !covered maps i).filterMap fun i => names[i]?

/-- The names of a list, each followed by one space. -/
def spaced : List String → String
  | [] => ""
  | v :: l => v ++ " " ++ spaced l

/-! ## Concrete networks and maps used as instances -/

/-- Network with one input `"x"` of range `[0, 1]` and one output `"y"`; its forward
evaluation doubles the input. -/
def sampleA : CNeuralNetwork :=
  { input_names := ["x"], output_names := ["y"], input_norm := [(0, 1)],
    forward := fun xs => [2 * xs.headD 0] }

/-- Network with one input `"x"` of range `[2, 3]` and one output `"y"`; its forward
evaluation adds one to the input. -/
def sampleB : CNeuralNetwork :=
  { input_names := ["x"], output_names := ["y"], input_norm := [(2, 3)],
    forward := fun xs => [xs.headD 0 + 1] }

/-- Map of the request of input `"x"` and output `"y"` for two networks that both have the
input `"x"` and the output `"y"`, scanned in the order 0, 1. -/
def sampleMap : CIOMap :=
  [{ MLP_index := 0, Input_Map := [(0, 0)], Output_Map := [(0, 0)] },
   { MLP_index := 1, Input_Map := [(0, 0)], Output_Map := [(0, 0)] }]

/-- Network with one input `"x"` of range `[5/4, 13/4]` and one output `"y"`; its forward
evaluation adds one to the input. -/
def sampleC : CNeuralNetwork :=
  { input_names := ["x"], output_names := ["y"], input_norm := [(5 / 4, 13 / 4)],
    forward := fun xs => [xs.headD 0 + 1] }

/-- Network with one input `"x"` of the degenerate range `[1, 1]` and one output `"y"`. -/
def sampleD : CNeuralNetwork :=
  { input_names := ["x"], output_names := ["y"], input_norm := [(1, 1)],
    forward := fun xs => [xs.headD 0] }

/-- Network with one input `"x"` of range `[lo, hi]` and one output `"y"` whose value is
`g` of the inputs. -/
def singleNet (lo hi : su2double) (g : List su2double → su2double) : CNeuralNetwork :=
  { input_names := ["x"], output_names := ["y"], input_norm := [(lo, hi)],
    forward := fun xs => [g xs] }

/-- Network with one input `"x"` of range `[0, 1]` and one output `"z"`; its forward
evaluation adds one hundred to the input. -/
def sampleZ : CNeuralNetwork :=
  { input_names := ["x"], output_names := ["z"], input_norm := [(0, 1)],
    forward := fun xs => [xs.headD 0 + 100] }

/-- Map of the request of input `"x"` and output `"y"` when only network 1 of the collection
has the output `"y"`. -/
def sampleMapOne : CIOMap :=
  [{ MLP_index := 1, Input_Map := [(0, 0)], Output_Map := [(0, 0)] }]

/-! ## The query path over the values of a double

The properties of the range test, of the returned status and of the storage that a call
writes depend on values that the rationals do not have (NaN, infinities) and must not depend on
how the arithmetic rounds. For them `PredictANN` is embedded a second time, in the namespace
`IEEE`: a `su2double` is a finite number, an infinity or a NaN, the comparisons are those
of doubles, the arithmetic operations with their rounding are a parameter `su2ops`, and the
objects that the call can reach (networks with their cached outputs, map, query vector,
output slots) are one `Memory` that every step takes and returns. -/

namespace IEEE

/-- Value of a `su2double`: a finite number, `+inf`, `-inf` or NaN. The finite values are
rationals, which include every finite double; the two zeros of a double are one value
(no comparison tells them apart). -/
inductive su2double where
  | fin (q : ℚ)
  | pinf
  | ninf
  | nan
deriving DecidableEq

namespace su2double

/-- Operator `<` of doubles: false as soon as one side is NaN. -/
def lt : su2double → su2double → Bool
  | fin a, fin b => decide (a < b)
  | fin _, pinf => true
  | ninf, fin _ => true
  | ninf, pinf => true
  | _, _ => false

/-- Relation `≤` of doubles: false as soon as one side is NaN. -/
def le : su2double → su2double → Bool
  | fin a, fin b => decide (a ≤ b)
  | fin _, pinf => true
  | ninf, fin _ => true
  | ninf, pinf => true
  | pinf, pinf => true
  | ninf, ninf => true
  | _, _ => false

end su2double

/-- Arithmetic of `su2double` as the platform performs it, rounding included: the
operations that lines 111-113 and 127 use. Nothing is assumed of them unless a statement
says so. An operation is a function of the values of its operands; the sign of a zero, on
which only the sign of an infinite quotient depends, is not represented. -/
structure su2ops where
  /-- Operator `+`. -/
  add : su2double → su2double → su2double
  /-- Operator `-`. -/
  sub : su2double → su2double → su2double
  /-- Operator `*`. -/
  mul : su2double → su2double → su2double
  /-- Operator `/`. -/
  div : su2double → su2double → su2double
  /-- Function `pow(x, 2)`. -/
  pow2 : su2double → su2double
  /-- Function `sqrt`. -/
  sqrt : su2double → su2double

/-- Modelled from the spec: the class `CNeuralNetwork` (not part of the sources) with the
output vector that `Predict` caches in it. The weights, biases and activation functions are
represented by the forward evaluation `forward`. -/
structure CNeuralNetwork where
  /-- Names of the inputs. -/
  input_names : List String
  /-- Names of the outputs. -/
  output_names : List String
  /-- Training ranges `(min, max)` of the inputs, `GetInputNorm(i)`. -/
  input_norm : List (su2double × su2double)
  /-- Values of all outputs that the weights give for raw inputs. -/
  forward : List su2double → List su2double
  /-- Output vector cached by the last `Predict`, read by `GetANNOutput`. -/
  ANN_outputs : List su2double

namespace CNeuralNetwork

/-- Modelled from the spec: `CNeuralNetwork::Predict`, which stores the outputs of the
forward evaluation in the network. -/
def Predict (net : CNeuralNetwork) (inputs : List su2double) : CNeuralNetwork :=
  { net with ANN_outputs := net.forward inputs }

/-- Modelled from the spec: `CNeuralNetwork::GetANNOutput`. -/
def GetANNOutput (net : CNeuralNetwork) (j : Nat) : Option su2double := net.ANN_outputs[j]?

/-- Training range of input `i`. -/
def GetInputNorm (net : CNeuralNetwork) (i : Nat) : Option (su2double × su2double) :=
  net.input_norm[i]?

end CNeuralNetwork

/-- Everything a call of `PredictANN` can reach: the collection of networks of the object,
and the three arguments (the map, the query vector, the values behind the output
pointers). -/
structure Memory where
  /-- Member `NeuralNetworks`. -/
  NeuralNetworks : List CNeuralNetwork
  /-- Argument `input_output_map`. -/
  input_output_map : CIOMap
  /-- Argument `inputs`. -/
  inputs : List su2double
  /-- Values of the slots that the argument `outputs` points to. The pointers are taken to
  be pairwise distinct and to point outside the networks, the map and the query vector. -/
  outputs : List su2double

/-- Inputs of the network of entry `i_map`, gathered from the query vector through the
input mapping of the entry (`CIOMap::GetMLPInputs`). -/
def GetMLPInputs (m : CIOMap) (i_map : Nat) (inputs : List su2double) :
    Option (List su2double) :=
  (m[i_map]?).bind fun e => e.Input_Map.mapM fun p => inputs[p.1]?

/-- Statement `NeuralNetworks[i_ANN].Predict(ANN_inputs)`. -/
def Predict (mem : Memory) (i_ANN : Nat) (ANN_inputs : List su2double) : Option Memory := do
  let net ← mem.NeuralNetworks[i_ANN]?
  pure { mem with NeuralNetworks := mem.NeuralNetworks.set i_ANN (net.Predict ANN_inputs) }

/-- Body of the loop over the inputs of one network (lines 103-113), on the pair
`(within_range, distance_to_query_i)`. -/
def rangeBody (ops : su2ops) (net : CNeuralNetwork) (ANN_inputs : List su2double)
    (i_input : Nat) (acc : Bool × su2double) : Option (Bool × su2double) := do
  let ANN_input_limits ← net.GetInputNorm i_input
  let x ← ANN_inputs[i_input]?
  let within_range :=
    if x.lt ANN_input_limits.1 || ANN_input_limits.2.lt x then false else acc.1
  let middle := ops.mul (su2double.fin (1 / 2)) (ops.add ANN_input_limits.2 ANN_input_limits.1)
  pure (within_range,
    ops.add acc.2
      (ops.pow2 (ops.div (ops.sub x middle) (ops.sub ANN_input_limits.2 ANN_input_limits.1))))

/-- Loop over the inputs of one network (lines 97, 101-114). -/
def rangeLoop (ops : su2ops) (net : CNeuralNetwork) (ANN_inputs : List su2double) :
    Option (Bool × su2double) :=
  forLoop ANN_inputs.length (rangeBody ops net ANN_inputs) (true, su2double.fin 0)

/-- Loop that writes the mapped outputs of entry `i_map` from the cached outputs of network
`i_ANN` (lines 120-123 and 137-140). -/
def writeOutputs (mem : Memory) (i_map i_ANN : Nat) : Option Memory := do
  let n ← mem.input_output_map.GetNMappedOutputs i_map
  let outputs ← forLoop n (fun i outputs => do
    let k ← mem.input_output_map.GetOutputIndex i_map i
    let j ← mem.input_output_map.GetMLPOutputIndex i_map i
    let net ← mem.NeuralNetworks[i_ANN]?
    let v ← net.GetANNOutput j
    if k < outputs.length then pure (outputs.set k v) else none) mem.outputs
  pure { mem with outputs := outputs }

/-- State of a call of `PredictANN`: the memory and the local variables. -/
structure ScanState where
  /-- Networks, map, query vector and output slots. -/
  mem : Memory
  /-- Local `MLP_was_evaluated`. -/
  MLP_was_evaluated : Bool
  /-- Local `distance_to_query`. -/
  distance_to_query : su2double
  /-- Local `i_ANN_nearest`. -/
  i_ANN_nearest : Nat
  /-- Local `i_map_nearest`. -/
  i_map_nearest : Nat

/-- Body of the scan loop of `PredictANN` (lines 97-131). -/
def scanBody (ops : su2ops) (i_map : Nat) (s : ScanState) : Option ScanState := do
  let i_ANN ← s.mem.input_output_map.GetMLPIndex i_map
  let ANN_inputs ← GetMLPInputs s.mem.input_output_map i_map s.mem.inputs
  let net ← s.mem.NeuralNetworks[i_ANN]?
  let r ← rangeLoop ops net ANN_inputs
  let s1 ←
    if r.1 then do
      let mem1 ← Predict s.mem i_ANN ANN_inputs
      let mem2 ← writeOutputs mem1 i_map i_ANN
      pure { s with mem := mem2, MLP_was_evaluated := true }
    else pure s
  if (ops.sqrt r.2).lt s1.distance_to_query then
    pure { s1 with i_ANN_nearest := i_ANN, distance_to_query := r.2, i_map_nearest := i_map }
  else pure s1

/-- State of `PredictANN` before the scan loop (lines 88-94). -/
def scanInit (mem : Memory) : ScanState :=
  { mem := mem, MLP_was_evaluated := false, distance_to_query := su2double.fin (10 ^ 20),
    i_ANN_nearest := 0, i_map_nearest := 0 }

/-- Scan loop of `PredictANN` (lines 96-132). -/
def scanLoop (ops : su2ops) (mem : Memory) : Option ScanState :=
  forLoop mem.input_output_map.GetNMLPs (scanBody ops) (scanInit mem)

/-- Function `CLookUp_ANN::PredictANN` (lines 85-145): the memory after the call and the
returned value (`0` in range, `1` extrapolated). -/
def PredictANN (ops : su2ops) (mem : Memory) : Option (Memory × Nat) := do
  let s ← scanLoop ops mem
  if !s.MLP_was_evaluated then
    let ANN_inputs ← GetMLPInputs s.mem.input_output_map s.i_map_nearest s.mem.inputs
    let mem1 ← Predict s.mem s.i_ANN_nearest ANN_inputs
    let mem2 ← writeOutputs mem1 s.i_map_nearest s.i_ANN_nearest
    pure (mem2, 1)
  else pure (s.mem, 0)

end IEEE

/-! ## Auxiliary functions for the query path over the values of a double -/

namespace IEEE

/-- Gathered inputs paired with the training range of the same position. -/
def limitPairs (norm : List (su2double × su2double)) (ANN_inputs : List su2double) :
    List (su2double × su2double × su2double) := ANN_inputs.zip norm

/-- No value of the list is below its `min` or above its `max` (test of line 106). -/
def passesB (l : List (su2double × su2double × su2double)) : Bool :=
  l.all fun q => !(q.1.lt q.2.1 || q.2.2.lt q.1)

/-- Sum of the terms `pow((x - middle) / (max - min), 2)` over the list, as lines 111-113
compute it. -/
def distOf (ops : su2ops) (l : List (su2double × su2double × su2double)) : su2double :=
  l.foldl (fun d q =>
    ops.add d (ops.pow2 (ops.div
      (ops.sub q.1 (ops.mul (su2double.fin (1 / 2)) (ops.add q.2.2 q.2.1)))
      (ops.sub q.2.2 q.2.1))))
    (su2double.fin 0)

/-- Output slots after the assignments `*outputs[p.1] = out[p.2]` for the pairs of `l`, in
order. -/
def writeAll (out : List su2double) (l : List (Nat × Nat)) (outputs : List su2double) :
    List su2double :=
  l.foldl (fun o p => o.set p.1 (out.getD p.2 su2double.nan)) outputs

/-- Inputs of the network of an entry, gathered from the query vector. -/
def gatherInputs (e : IOMapEntry) (inputs : List su2double) : List su2double :=
  e.Input_Map.map fun p => inputs.getD p.1 su2double.nan

/-- Update of the nearest network at the end of one scan iteration (lines 127-131). -/
def updateNearest (ops : su2ops) (i_map i_ANN : Nat) (d : su2double) (s : ScanState) :
    ScanState :=
  if (ops.sqrt d).lt s.distance_to_query then
    { s with i_ANN_nearest := i_ANN, distance_to_query := d, i_map_nearest := i_map }
  else s

/-- Memory after the evaluation of network `e.MLP_index` on the inputs `xs` and the writing
of its mapped outputs (lines 118-123 and 135-140). -/
def evaluateEntry (e : IOMapEntry) (i_ANN : Nat) (net : CNeuralNetwork) (xs : List su2double)
    (mem : Memory) : Memory :=
  { mem with NeuralNetworks := mem.NeuralNetworks.set i_ANN (net.Predict xs),
             outputs := writeAll (net.forward xs) e.Output_Map mem.outputs }

/-- One iteration of the scan loop in closed form. -/
def scanStep (ops : su2ops) (i_map : Nat) (s : ScanState) : ScanState :=
  match s.mem.input_output_map[i_map]? with
  | none => s
  | some e =>
    match s.mem.NeuralNetworks[e.MLP_index]? with
    | none => s
    | some net =>
      updateNearest ops i_map e.MLP_index
        (distOf ops (limitPairs net.input_norm (gatherInputs e s.mem.inputs)))
        (if passesB (limitPairs net.input_norm (gatherInputs e s.mem.inputs)) then
          { s with mem := evaluateEntry e e.MLP_index net (gatherInputs e s.mem.inputs) s.mem,
                   MLP_was_evaluated := true }
        else s)

/-- State after the first `n` iterations of the scan loop. -/
def scanPure (ops : su2ops) (s0 : ScanState) : Nat → ScanState
  | 0 => s0
  | n + 1 => scanStep ops n (scanPure ops s0 n)

/-- Bounds on which the accesses of `PredictANN` for entry `e` rely: the network index is
valid, there is a training range for every gathered input, the requested indices lie inside
the query vector and the output slots, and the mapped network outputs exist. -/
structure EntryOK (mem : Memory) (e : IOMapEntry) (net : CNeuralNetwork) : Prop where
  /-- The entry refers to a loaded network. -/
  net_eq : mem.NeuralNetworks[e.MLP_index]? = some net
  /-- Every gathered input has a training range. -/
  norm_len : e.Input_Map.length ≤ net.input_norm.length
  /-- Requested input indices lie inside the query vector. -/
  in_idx : ∀ p ∈ e.Input_Map, p.1 < mem.inputs.length
  /-- Requested output indices are output slots. -/
  out_idx : ∀ p ∈ e.Output_Map, p.1 < mem.outputs.length
  /-- Mapped network outputs are computed by the forward evaluation. -/
  out_loc : ∀ p ∈ e.Output_Map, ∀ xs, p.2 < (net.forward xs).length

/-- A memory whose map fits the networks, the query vector and the output slots. -/
def WellFormed (mem : Memory) : Prop :=
  ∀ e ∈ mem.input_output_map, ∃ net, EntryOK mem e net

/-- The memory `mem1` differs from `mem0` at most in the cached outputs of the networks and
in the values of the output slots. -/
structure Related (mem0 mem1 : Memory) : Prop where
  /-- Same map. -/
  map_eq : mem1.input_output_map = mem0.input_output_map
  /-- Same query vector. -/
  inputs_eq : mem1.inputs = mem0.inputs
  /-- Same number of output slots. -/
  outputs_len : mem1.outputs.length = mem0.outputs.length
  /-- Same number of networks. -/
  nets_len : mem1.NeuralNetworks.length = mem0.NeuralNetworks.length
  /-- Same names, ranges and weights of every network. -/
  nets_eq : ∀ (i : Nat) (a b : CNeuralNetwork), mem0.NeuralNetworks[i]? = some a →
    mem1.NeuralNetworks[i]? = some b →
    b.input_names = a.input_names ∧ b.output_names = a.output_names ∧
      b.input_norm = a.input_norm ∧ b.forward = a.forward

/-- No gathered input is below `min` or above `max` of its position: what the test of line
106 checks. -/
def PassesTest (norm : List (su2double × su2double)) (ANN_inputs : List su2double) : Prop :=
  ∀ (i : Nat) (x : su2double) (lim : su2double × su2double), ANN_inputs[i]? = some x →
    norm[i]? = some lim → x.lt lim.1 = false ∧ lim.2.lt x = false

/-- Every gathered input lies in the training range of its position, `min ≤ x ≤ max`. -/
def InsideRange (norm : List (su2double × su2double)) (ANN_inputs : List su2double) : Prop :=
  ∀ (i : Nat) (x : su2double) (lim : su2double × su2double), ANN_inputs[i]? = some x →
    norm[i]? = some lim → lim.1.le x = true ∧ x.le lim.2 = true

/-- No gathered input and no limit of its range is a NaN. -/
def NoNaN (norm : List (su2double × su2double)) (ANN_inputs : List su2double) : Prop :=
  ∀ (i : Nat) (x : su2double) (lim : su2double × su2double), ANN_inputs[i]? = some x →
    norm[i]? = some lim → x ≠ su2double.nan ∧ lim.1 ≠ su2double.nan ∧ lim.2 ≠ su2double.nan

/-- Entry `i_map` of the map with its network and its gathered inputs. -/
def EntryData (mem : Memory) (i_map : Nat) (e : IOMapEntry) (net : CNeuralNetwork)
    (xs : List su2double) : Prop :=
  mem.input_output_map[i_map]? = some e ∧ mem.NeuralNetworks[e.MLP_index]? = some net ∧
    GetMLPInputs mem.input_output_map i_map mem.inputs = some xs

/-- The network of entry `i_map` passes the test of line 106 for the query. -/
def EntryPasses (mem : Memory) (i_map : Nat) : Prop :=
  ∃ e net xs, EntryData mem i_map e net xs ∧ PassesTest net.input_norm xs

/-- The network of entry `i_map` has all its gathered inputs inside its ranges. -/
def EntryInside (mem : Memory) (i_map : Nat) : Prop :=
  ∃ e net xs, EntryData mem i_map e net xs ∧ InsideRange net.input_norm xs

/-- The nearest-network variables are usable by the fallback: the first entry of the map is
network 0 (so that the initial values `i_ANN_nearest = 0` and `i_map_nearest = 0` belong
together), or the distance `d` that the scan computes for some entry passes the test
`sqrt(d) < 1e20` of line 127 (so that the scan records a nearest network). -/
def NearestDefined (ops : su2ops) (mem : Memory) : Prop :=
  (∃ e, mem.input_output_map[0]? = some e ∧ e.MLP_index = 0) ∨
  (∃ k e net xs r, EntryData mem k e net xs ∧ rangeLoop ops net xs = some r ∧
    (ops.sqrt r.2).lt (su2double.fin (10 ^ 20)) = true)

/-- Facts of IEEE 754 arithmetic about zero, infinities and NaN that hold whatever the
rounding: `x - x = 0` for finite `x`, `0 / w = 0` for `w` neither zero nor NaN, `a / 0` is
an infinity or a NaN, `pow(0, 2) = 0`, `pow(±inf, 2) = +inf`, `pow(NaN, 2) = NaN`,
`0 + 0 = 0`, `0 + inf = inf` and `0 + NaN = NaN`. -/
structure su2ops.Lawful (ops : su2ops) : Prop where
  /-- `x - x = 0` for finite `x`. -/
  sub_self : ∀ q, ops.sub (su2double.fin q) (su2double.fin q) = su2double.fin 0
  /-- `0 / w = 0` for `w` neither zero nor NaN. -/
  zero_div : ∀ w, w ≠ su2double.fin 0 → w ≠ su2double.nan →
    ops.div (su2double.fin 0) w = su2double.fin 0
  /-- `a / 0` is an infinity or a NaN. -/
  div_zero : ∀ a, ops.div a (su2double.fin 0) = su2double.pinf ∨
    ops.div a (su2double.fin 0) = su2double.ninf ∨ ops.div a (su2double.fin 0) = su2double.nan
  /-- `pow(0, 2) = 0`. -/
  pow2_zero : ops.pow2 (su2double.fin 0) = su2double.fin 0
  /-- `pow(+inf, 2) = +inf`. -/
  pow2_pinf : ops.pow2 su2double.pinf = su2double.pinf
  /-- `pow(-inf, 2) = +inf`. -/
  pow2_ninf : ops.pow2 su2double.ninf = su2double.pinf
  /-- `pow(NaN, 2) = NaN`. -/
  pow2_nan : ops.pow2 su2double.nan = su2double.nan
  /-- `0 + 0 = 0`. -/
  add_zero : ops.add (su2double.fin 0) (su2double.fin 0) = su2double.fin 0
  /-- `0 + inf = inf`. -/
  add_pinf : ops.add (su2double.fin 0) su2double.pinf = su2double.pinf
  /-- `0 + NaN = NaN`. -/
  add_nan : ops.add (su2double.fin 0) su2double.nan = su2double.nan

/-! ### An arithmetic and memories used as instances -/

/-- Sum without rounding. -/
def exactAdd : su2double → su2double → su2double
  | su2double.fin a, su2double.fin b => su2double.fin (a + b)
  | su2double.nan, _ => su2double.nan
  | _, su2double.nan => su2double.nan
  | su2double.pinf, su2double.ninf => su2double.nan
  | su2double.ninf, su2double.pinf => su2double.nan
  | su2double.pinf, _ => su2double.pinf
  | _, su2double.pinf => su2double.pinf
  | su2double.ninf, _ => su2double.ninf
  | _, su2double.ninf => su2double.ninf

/-- Opposite. -/
def exactNeg : su2double → su2double
  | su2double.fin a => su2double.fin (-a)
  | su2double.pinf => su2double.ninf
  | su2double.ninf => su2double.pinf
  | su2double.nan => su2double.nan

/-- Sign of a value as a finite number (`1`, `0`, `-1`), NaN for NaN. -/
def exactSign : su2double → su2double
  | su2double.fin a => if a = 0 then su2double.fin 0 else if 0 < a then su2double.fin 1
      else su2double.fin (-1)
  | su2double.pinf => su2double.fin 1
  | su2double.ninf => su2double.fin (-1)
  | su2double.nan => su2double.nan

/-- Product without rounding. -/
def exactMul : su2double → su2double → su2double
  | su2double.fin a, su2double.fin b => su2double.fin (a * b)
  | x, y =>
    match exactSign x, exactSign y with
    | su2double.fin a, su2double.fin b =>
      if a * b = 0 then su2double.nan else if 0 < a * b then su2double.pinf else su2double.ninf
    | _, _ => su2double.nan

/-- Quotient without rounding. -/
def exactDiv : su2double → su2double → su2double
  | su2double.fin a, su2double.fin b =>
    if b = 0 then (if a = 0 then su2double.nan else if 0 < a then su2double.pinf
      else su2double.ninf)
    else su2double.fin (a / b)
  | su2double.nan, _ => su2double.nan
  | _, su2double.nan => su2double.nan
  | su2double.fin _, _ => su2double.fin 0
  | su2double.pinf, su2double.fin b => if 0 ≤ b then su2double.pinf else su2double.ninf
  | su2double.ninf, su2double.fin b => if 0 ≤ b then su2double.ninf else su2double.pinf
  | _, _ => su2double.nan

/-- Square root: exact for the square of a rational, rounded towards zero to a multiple of
the inverse of the denominator otherwise. -/
def exactSqrt : su2double → su2double
  | su2double.fin a =>
    if a < 0 then su2double.nan
    else su2double.fin ((Nat.sqrt (a.num.toNat * a.den) : ℚ) / a.den)
  | su2double.pinf => su2double.pinf
  | _ => su2double.nan

/-- An arithmetic without rounding, with the special values of IEEE 754. -/
def exactOps : su2ops :=
  { add := exactAdd, sub := fun x y => exactAdd x (exactNeg y), mul := exactMul,
    div := exactDiv, pow2 := fun x => exactMul x x, sqrt := exactSqrt }

/-- Network 0: input `"x"` of range `[0, 1]`, output `"y"`, the output is the input. -/
def netA : CNeuralNetwork :=
  { input_names := ["x"], output_names := ["y"],
    input_norm := [(su2double.fin 0, su2double.fin 1)],
    forward := fun xs => [xs.headD (su2double.fin 0)], ANN_outputs := [] }

/-- Network 1: input `"t"` of range `[2, 3]`, output `"w"`, the output is always `42`. -/
def netB : CNeuralNetwork :=
  { input_names := ["t"], output_names := ["w"],
    input_norm := [(su2double.fin 2, su2double.fin 3)],
    forward := fun _ => [su2double.fin 42], ANN_outputs := [] }

/-- Map of the request of the inputs `"x"`, `"t"` and the outputs `"y"`, `"w"` for `netA`
and `netB`. -/
def mapAB : CIOMap :=
  [{ MLP_index := 0, Input_Map := [(0, 0)], Output_Map := [(0, 0)] },
   { MLP_index := 1, Input_Map := [(1, 0)], Output_Map := [(1, 0)] }]

/-- Memory with the networks `netA`, `netB`, the map `mapAB`, the query `(x, t)` and two
output slots holding `7` and `8`. -/
def memAB (x t : su2double) : Memory :=
  { NeuralNetworks := [netA, netB], input_output_map := mapAB, inputs := [x, t],
    outputs := [su2double.fin 7, su2double.fin 8] }

/-- Memory with the single network `netA`, a map without entries (no output is requested)
and no output slot. -/
def memEmpty : Memory :=
  { NeuralNetworks := [netA], input_output_map := [], inputs := [su2double.fin (1 / 2)],
    outputs := [] }

/-- Memory with the single network `netA`, the map of the request of `"x"` and `"y"`, the
query `x` and one output slot holding `7`. -/
def memA (x : su2double) : Memory :=
  { NeuralNetworks := [netA],
    input_output_map := [{ MLP_index := 0, Input_Map := [(0, 0)], Output_Map := [(0, 0)] }],
    inputs := [x], outputs := [su2double.fin 7] }

/-- Network with one input of the zero-width range `[1, 1]`. -/
def netD : CNeuralNetwork :=
  { input_names := ["x"], output_names := ["y"],
    input_norm := [(su2double.fin 1, su2double.fin 1)],
    forward := fun xs => [xs.headD (su2double.fin 0)], ANN_outputs := [] }

end IEEE

/-! ## Properties of the loops -/

theorem forLoop_zero {σ : Type} (body : Nat → σ → Option σ) (s : σ) :
    forLoop 0 body s = some s := rfl

theorem forLoop_succ {σ : Type} (n : Nat) (body : Nat → σ → Option σ) (s : σ) :
    forLoop (n + 1) body s = (forLoop n body s).bind (body n) := by
  unfold forLoop
  rw [List.range_succ, List.foldlM_append]
  cases h : List.foldlM (fun acc i => body i acc) s (List.range n) with
  | none => rfl
  | some a => simp [List.foldlM]

/-! ## The comparison `sqrt(d) < D` -/

theorem sqrt_lt_fin_iff (d D : su2double) :
    su2val.sqrt_lt (su2val.fin d) (su2val.fin D) = true ↔
      0 ≤ d ∧ Real.sqrt (d : ℝ) < (D : ℝ) := by
  simp only [su2val.sqrt_lt, Bool.and_eq_true, decide_eq_true_eq, and_assoc]
  constructor
  · rintro ⟨h0, hD, hlt⟩
    refine ⟨h0, ?_⟩
    rw [Real.sqrt_lt' (by exact_mod_cast hD), pow_two]
    exact_mod_cast hlt
  · rintro ⟨h0, hlt⟩
    have hD : (0 : ℝ) < (D : ℝ) := lt_of_le_of_lt (Real.sqrt_nonneg _) hlt
    refine ⟨h0, by exact_mod_cast hD, ?_⟩
    rw [Real.sqrt_lt' hD, pow_two] at hlt
    exact_mod_cast hlt

/-! ## The range loop -/

theorem rangeLoop_take (net : CNeuralNetwork) (xs : List su2double)
    (hlen : xs.length ≤ net.input_norm.length) (n : Nat) (hn : n ≤ xs.length) :
    forLoop n (rangeBody net xs) (true, su2val.fin 0) =
      some (inRangeB ((limitPairs net xs).take n), distOf ((limitPairs net xs).take n)) := by
  induction n with
  | zero => simp [forLoop_zero, inRangeB, distOf]
  | succ n ih =>
    have h1 : n < xs.length := hn
    have h2 : n < net.input_norm.length := by omega
    rw [forLoop_succ, ih (by omega)]
    have hz : (limitPairs net xs)[n]? = some (xs[n], net.input_norm[n]) := by
      simp [limitPairs, List.getElem?_zip_eq_some, List.getElem?_eq_getElem, h1, h2]
    rw [List.take_succ, hz]
    simp only [Option.some_bind, rangeBody, CNeuralNetwork.GetInputNorm,
      List.getElem?_eq_getElem h1, List.getElem?_eq_getElem h2, Option.bind_eq_bind,
      Option.pure_def, Option.toList_some, inRangeB, distOf, List.all_append, List.foldl_append,
      List.all_cons, List.all_nil, List.foldl_cons, List.foldl_nil, Bool.and_true]
    congr 2
    by_cases hlo : xs[n] < net.input_norm[n].1
    · simp [hlo, not_le.mpr hlo]
    · by_cases hhi : xs[n] > net.input_norm[n].2
      · simp [hhi, not_le.mpr hhi]
      · simp [hlo, hhi, not_lt.mp hlo, not_lt.mp hhi]

theorem rangeLoop_eq (net : CNeuralNetwork) (xs : List su2double)
    (hlen : xs.length ≤ net.input_norm.length) :
    rangeLoop net xs = some (inRangeB (limitPairs net xs), distOf (limitPairs net xs)) := by
  have h := rangeLoop_take net xs hlen xs.length le_rfl
  have ht : (limitPairs net xs).take xs.length = limitPairs net xs := by
    apply List.take_of_length_le
    simp [limitPairs, List.length_zip]
  rw [ht] at h
  exact h

/-! ## The output loop -/

theorem writeAll_length (out : List su2double) (l : List (Nat × Nat))
    (outputs : List su2double) : (writeAll out l outputs).length = outputs.length := by
  unfold writeAll
  induction l generalizing outputs with
  | nil => rfl
  | cons a l ih => rw [List.foldl_cons, ih, List.length_set]

theorem writeAll_append (out : List su2double) (l1 l2 : List (Nat × Nat))
    (outputs : List su2double) :
    writeAll out (l1 ++ l2) outputs = writeAll out l2 (writeAll out l1 outputs) := by
  simp [writeAll, List.foldl_append]

theorem writeOutputs_take (m : CIOMap) (i_map i_ANN : Nat) (e : IOMapEntry)
    (cache : List (List su2double)) (out outputs : List su2double)
    (he : m[i_map]? = some e) (hc : cache[i_ANN]? = some out)
    (hb : ∀ p ∈ e.Output_Map, p.1 < outputs.length ∧ p.2 < out.length)
    (n : Nat) (hn : n ≤ e.Output_Map.length) :
    forLoop n (fun i outputs => do
      let k ← m.GetOutputIndex i_map i
      let j ← m.GetMLPOutputIndex i_map i
      let v ← GetANNOutput cache i_ANN j
      if k < outputs.length then pure (outputs.set k v) else none) outputs
      = some (writeAll out (e.Output_Map.take n) outputs) := by
  induction n with
  | zero => simp [forLoop_zero, writeAll]
  | succ n ih =>
    have h1 : n < e.Output_Map.length := hn
    rw [forLoop_succ, ih (by omega), List.take_succ, List.getElem?_eq_getElem h1,
      Option.toList_some, writeAll_append]
    have hp := hb _ (List.getElem_mem h1)
    have ho1 := writeAll_length out (List.take n e.Output_Map) outputs
    generalize writeAll out (List.take n e.Output_Map) outputs = o1 at ho1
    simp [CIOMap.GetOutputIndex, CIOMap.GetMLPOutputIndex, GetANNOutput, he, hc,
      List.getElem?_eq_getElem h1, List.getElem?_eq_getElem hp.2, hp.1, ho1, writeAll]

theorem writeOutputs_eq (m : CIOMap) (i_map i_ANN : Nat) (e : IOMapEntry)
    (cache : List (List su2double)) (out outputs : List su2double)
    (he : m[i_map]? = some e) (hc : cache[i_ANN]? = some out)
    (hb : ∀ p ∈ e.Output_Map, p.1 < outputs.length ∧ p.2 < out.length) :
    writeOutputs m i_map i_ANN cache outputs = some (writeAll out e.Output_Map outputs) := by
  have h := writeOutputs_take m i_map i_ANN e cache out outputs he hc hb _ le_rfl
  rw [List.take_length] at h
  simp only [writeOutputs, CIOMap.GetNMappedOutputs, he, Option.map_some', Option.bind_eq_bind,
    Option.some_bind]
  exact h

/-! ## One iteration of the scan loop -/

theorem mapM_getElem?_eq (inputs : List su2double) (l : List (Nat × Nat))
    (h : ∀ p ∈ l, p.1 < inputs.length) :
    l.mapM (fun p => inputs[p.1]?) = some (l.map fun p => inputs.getD p.1 0) := by
  induction l with
  | nil => rfl
  | cons a l ih =>
    have ha : a.1 < inputs.length := h a (List.mem_cons_self _ _)
    have hl := ih fun p hp => h p (List.mem_cons_of_mem _ hp)
    rw [← List.mapM'_eq_mapM] at hl ⊢
    simp [List.mapM', hl, List.getElem?_eq_getElem ha]

theorem GetMLPInputs_eq (m : CIOMap) (i_map : Nat) (e : IOMapEntry) (inputs : List su2double)
    (he : m[i_map]? = some e) (h : ∀ p ∈ e.Input_Map, p.1 < inputs.length) :
    m.GetMLPInputs i_map inputs = some (gatherInputs e inputs) := by
  simp only [CIOMap.GetMLPInputs, he, Option.some_bind, mapM_getElem?_eq inputs e.Input_Map h,
    gatherInputs]

theorem scanBody_eq (nets : List CNeuralNetwork) (m : CIOMap) (inputs : List su2double)
    (i_map : Nat) (e : IOMapEntry) (net : CNeuralNetwork) (s : ScanState)
    (he : m[i_map]? = some e) (hok : EntryOK nets inputs s.outputs.length e net)
    (hc : s.ANN_outputs.length = nets.length) :
    scanBody nets m inputs i_map s = some (scanStep net inputs i_map e s) := by
  have hlen : (gatherInputs e inputs).length ≤ net.input_norm.length := by
    simpa [gatherInputs] using hok.norm_len
  have hi : e.MLP_index < nets.length := (List.getElem?_eq_some.mp hok.net_eq).1
  have hw := writeOutputs_eq m i_map e.MLP_index e
    (s.ANN_outputs.set e.MLP_index (net.forward (gatherInputs e inputs)))
    (net.forward (gatherInputs e inputs)) s.outputs he
    (by simp [List.getElem?_set, hc, hi])
    (fun p hp => ⟨hok.out_idx p hp, hok.out_loc p hp _⟩)
  simp only [scanBody, CIOMap.GetMLPIndex, he, Option.map_some', Option.bind_eq_bind,
    Option.some_bind, GetMLPInputs_eq m i_map e inputs he hok.in_idx, hok.net_eq,
    rangeLoop_eq net _ hlen, Predict, hc, hi, if_true, Option.pure_def, hw, scanStep,
    updateNearest, evaluateEntry]
  by_cases hr : inRangeB (limitPairs net (gatherInputs e inputs)) = true
  · simp only [hr, if_true, Option.some_bind]
    split <;> rfl
  · simp only [hr, Option.some_bind]
    by_cases hq : (distOf (limitPairs net (gatherInputs e inputs))).sqrt_lt s.distance_to_query
        = true
    · simp [hq]
    · simp [hq]

/-! ## The scan loop -/

theorem updateNearest_outputs (i_map i_ANN : Nat) (d : su2val) (s : ScanState) :
    (updateNearest i_map i_ANN d s).outputs = s.outputs ∧
    (updateNearest i_map i_ANN d s).ANN_outputs = s.ANN_outputs ∧
    (updateNearest i_map i_ANN d s).MLP_was_evaluated = s.MLP_was_evaluated := by
  unfold updateNearest
  split <;> simp

theorem scanStep_lengths (net : CNeuralNetwork) (inputs : List su2double) (i_map : Nat)
    (e : IOMapEntry) (s : ScanState) :
    (scanStep net inputs i_map e s).ANN_outputs.length = s.ANN_outputs.length ∧
    (scanStep net inputs i_map e s).outputs.length = s.outputs.length := by
  unfold scanStep
  rw [(updateNearest_outputs _ _ _ _).1, (updateNearest_outputs _ _ _ _).2.1]
  split <;> simp [evaluateEntry, writeAll_length]

theorem scanPure_lengths (nets : List CNeuralNetwork) (m : CIOMap) (inputs : List su2double)
    (s0 : ScanState) (n : Nat) :
    (scanPure nets m inputs s0 n).ANN_outputs.length = s0.ANN_outputs.length ∧
    (scanPure nets m inputs s0 n).outputs.length = s0.outputs.length := by
  induction n with
  | zero => exact ⟨rfl, rfl⟩
  | succ n ih =>
    simp only [scanPure]
    split
    · exact ih
    · split
      · exact ih
      · rw [(scanStep_lengths _ _ _ _ _).1, (scanStep_lengths _ _ _ _ _).2]
        exact ih

theorem scanPure_succ (nets : List CNeuralNetwork) (m : CIOMap) (inputs : List su2double)
    (s0 : ScanState) (n : Nat) (e : IOMapEntry) (net : CNeuralNetwork)
    (he : m[n]? = some e) (hnet : nets[e.MLP_index]? = some net) :
    scanPure nets m inputs s0 (n + 1) = scanStep net inputs n e (scanPure nets m inputs s0 n) := by
  simp only [scanPure, he, hnet]

theorem WellFormed.entry {nets : List CNeuralNetwork} {m : CIOMap} {inputs : List su2double}
    {cache : List (List su2double)} {outputs : List su2double}
    (hwf : WellFormed nets m inputs cache outputs) {k : Nat} (hk : k < m.length) :
    ∃ e net, m[k]? = some e ∧ EntryOK nets inputs outputs.length e net := by
  obtain ⟨net, hok⟩ := hwf.2 m[k] (List.getElem_mem hk)
  exact ⟨m[k], net, List.getElem?_eq_getElem hk, hok⟩

theorem scanLoop_take (nets : List CNeuralNetwork) (m : CIOMap) (inputs : List su2double)
    (cache : List (List su2double)) (outputs : List su2double)
    (hwf : WellFormed nets m inputs cache outputs) (n : Nat) (hn : n ≤ m.length) :
    forLoop n (scanBody nets m inputs) (scanInit cache outputs) =
      some (scanPure nets m inputs (scanInit cache outputs) n) := by
  induction n with
  | zero => rfl
  | succ n ih =>
    obtain ⟨e, net, he, hok⟩ := hwf.entry (Nat.lt_of_succ_le hn)
    have hl := scanPure_lengths nets m inputs (scanInit cache outputs) n
    rw [forLoop_succ, ih (by omega), Option.some_bind, scanPure_succ _ _ _ _ _ e net he hok.net_eq]
    apply scanBody_eq _ _ _ _ _ _ _ he
    · rw [hl.2]; exact hok
    · rw [hl.1]; exact hwf.1

theorem scanLoop_eq (nets : List CNeuralNetwork) (m : CIOMap) (inputs : List su2double)
    (cache : List (List su2double)) (outputs : List su2double)
    (hwf : WellFormed nets m inputs cache outputs) :
    scanLoop nets m inputs cache outputs =
      some (scanPure nets m inputs (scanInit cache outputs) m.length) :=
  scanLoop_take nets m inputs cache outputs hwf m.length le_rfl

/-! ## Range test and the flag `MLP_was_evaluated` -/

theorem PredictANN_evaluated (nets : List CNeuralNetwork) (m : CIOMap) (inputs : List su2double)
    (cache : List (List su2double)) (outputs : List su2double)
    (hwf : WellFormed nets m inputs cache outputs)
    (hev : (scanPure nets m inputs (scanInit cache outputs) m.length).MLP_was_evaluated = true) :
    PredictANN nets m inputs cache outputs =
      some { ANN_outputs := (scanPure nets m inputs (scanInit cache outputs) m.length).ANN_outputs,
             outputs := (scanPure nets m inputs (scanInit cache outputs) m.length).outputs,
             status := 0 } := by
  simp [PredictANN, scanLoop_eq nets m inputs cache outputs hwf, hev]

theorem PredictANN_fallback (nets : List CNeuralNetwork) (m : CIOMap) (inputs : List su2double)
    (cache : List (List su2double)) (outputs : List su2double)
    (hwf : WellFormed nets m inputs cache outputs)
    (hev : (scanPure nets m inputs (scanInit cache outputs) m.length).MLP_was_evaluated = false)
    (e : IOMapEntry) (net : CNeuralNetwork)
    (he : m[(scanPure nets m inputs (scanInit cache outputs) m.length).i_map_nearest]? = some e)
    (hnet : nets[(scanPure nets m inputs (scanInit cache outputs) m.length).i_ANN_nearest]?
      = some net)
    (hin : ∀ p ∈ e.Input_Map, p.1 < inputs.length)
    (hout : ∀ p ∈ e.Output_Map, p.1 < outputs.length ∧
      p.2 < (net.forward (gatherInputs e inputs)).length) :
    PredictANN nets m inputs cache outputs =
      some { ANN_outputs :=
               (scanPure nets m inputs (scanInit cache outputs) m.length).ANN_outputs.set
                 (scanPure nets m inputs (scanInit cache outputs) m.length).i_ANN_nearest
                 (net.forward (gatherInputs e inputs)),
             outputs := writeAll (net.forward (gatherInputs e inputs)) e.Output_Map
               (scanPure nets m inputs (scanInit cache outputs) m.length).outputs,
             status := 1 } := by
  have hl := scanPure_lengths nets m inputs (scanInit cache outputs) m.length
  unfold PredictANN
  rw [scanLoop_eq nets m inputs cache outputs hwf]
  generalize scanPure nets m inputs (scanInit cache outputs) m.length = s at *
  have hi : s.i_ANN_nearest < nets.length := (List.getElem?_eq_some.mp hnet).1
  have hc : s.ANN_outputs.length = nets.length := by rw [hl.1]; exact hwf.1
  have hw := writeOutputs_eq m s.i_map_nearest s.i_ANN_nearest e
    (s.ANN_outputs.set s.i_ANN_nearest (net.forward (gatherInputs e inputs)))
    (net.forward (gatherInputs e inputs)) s.outputs he
    (by simp [List.getElem?_set, hc, hi])
    (fun p hp => ⟨by rw [hl.2]; exact (hout p hp).1, (hout p hp).2⟩)
  simp [hev, GetMLPInputs_eq m _ e inputs he hin, Predict, hnet, hc, hi, hw]

/-! ## C2: the network of the fallback -/

/-- C2 (evaluation of the code where the claim fails): networks 0 and 1 with ranges `[0, 1]`
and `[5/4, 13/4]`, query `9/8`. Neither network is within range; the distances are `25/64`
for network 0 and the smaller `81/256` for network 1, but the fallback evaluates network 0
and writes its output `9/4` (network 1 would give `17/8`), because the test of line 127
compares the root `9/16` of the new distance with the stored squared distance `25/64`. -/
theorem PredictANN_fallback_not_nearest :
    rangeLoop sampleA [9 / 8] = some (false, su2val.fin (25 / 64)) ∧
    rangeLoop sampleC [9 / 8] = some (false, su2val.fin (81 / 256)) ∧
    PredictANN [sampleA, sampleC] sampleMap [9 / 8] [[], []] [0] =
      some { ANN_outputs := [[9 / 4], []], outputs := [9 / 4], status := 1 } ∧
    sampleC.forward [9 / 8] = [17 / 8] := by
  refine ⟨?_, ?_, ?_, ?_⟩ <;> decide!

/-! ## Effect of one scan iteration on the caches and the slots -/

theorem findBody_eq (net : CNeuralNetwork) (names : List String) (input : Bool) (i j : Nat)
    (l : List (Nat × Nat))
    (hi : i < (if input then net.input_names else net.output_names).length)
    (hj : j < names.length) :
    findBody net names input i j l =
      some (l ++ if names[j]? == (if input then net.input_names else net.output_names)[i]?
        then [(j, i)] else []) := by
  cases input with
  | true =>
    simp only [if_true] at hi
    by_cases h : names[j] = net.input_names[i]
    · simp [findBody, CNeuralNetwork.GetInputName, List.getElem?_eq_getElem hi,
        List.getElem?_eq_getElem hj, h]
    · simp [findBody, CNeuralNetwork.GetInputName, List.getElem?_eq_getElem hi,
        List.getElem?_eq_getElem hj, h]
  | false =>
    simp only [Bool.false_eq_true, if_false] at hi
    by_cases h : names[j] = net.output_names[i]
    · simp [findBody, CNeuralNetwork.GetOutputName, List.getElem?_eq_getElem hi,
        List.getElem?_eq_getElem hj, h]
    · simp [findBody, CNeuralNetwork.GetOutputName, List.getElem?_eq_getElem hi,
        List.getElem?_eq_getElem hj, h]

theorem findInner_take (net : CNeuralNetwork) (names : List String) (input : Bool) (i : Nat)
    (l : List (Nat × Nat))
    (hi : i < (if input then net.input_names else net.output_names).length)
    (n : Nat) (hn : n ≤ names.length) :
    forLoop n (findBody net names input i) l =
      some (l ++ ((List.range n).filter fun j =>
        names[j]? == (if input then net.input_names else net.output_names)[i]?).map
          fun j => (j, i)) := by
  induction n with
  | zero => simp [forLoop_zero]
  | succ n ih =>
    rw [forLoop_succ, ih (by omega), Option.some_bind, findBody_eq net names input i n _ hi hn,
      List.range_succ, List.filter_append, List.map_append, List.append_assoc]
    congr 2
    by_cases h : (names[n]? == (if input then net.input_names else net.output_names)[i]?) = true
    · simp [List.filter_cons, h]
    · simp [List.filter_cons, h]

theorem findOuter_take (net : CNeuralNetwork) (names : List String) (input : Bool)
    (n : Nat) (hn : n ≤ (if input then net.input_names else net.output_names).length) :
    forLoop n (fun iVar variable_indices =>
        forLoop names.length (findBody net names input iVar) variable_indices) [] =
      some ((List.range n).flatMap
        (matchesOf names (if input then net.input_names else net.output_names))) := by
  induction n with
  | zero => simp [forLoop_zero]
  | succ n ih =>
    rw [forLoop_succ, ih (by omega), Option.some_bind,
      findInner_take net names input n _ hn names.length le_rfl, List.range_succ,
      List.flatMap_append]
    simp [matchesOf]

theorem FindVariableIndices_eq (nets : List CNeuralNetwork) (i_ANN : Nat) (names : List String)
    (input : Bool) (net : CNeuralNetwork) (hnet : nets[i_ANN]? = some net) :
    FindVariableIndices nets i_ANN names input =
      some (allMatches names (if input then net.input_names else net.output_names)) := by
  have h := findOuter_take net names input _ le_rfl
  simp only [FindVariableIndices, hnet, Option.bind_eq_bind, Option.some_bind,
    CNeuralNetwork.GetnInputs, CNeuralNetwork.GetnOutputs]
  cases input <;> exact h

theorem mem_matchesOf (names ns : List String) (i : Nat) (q : Nat × Nat) :
    q ∈ matchesOf names ns i ↔ q.2 = i ∧ ∃ s, names[q.1]? = some s ∧ ns[i]? = some s := by
  obtain ⟨j, i1⟩ := q
  simp only [matchesOf, List.mem_map, List.mem_filter, List.mem_range, Prod.mk.injEq,
    beq_iff_eq]
  constructor
  · rintro ⟨j1, ⟨hj, heq⟩, rfl, rfl⟩
    exact ⟨rfl, names[j1], List.getElem?_eq_getElem hj,
      by rw [← heq]; exact List.getElem?_eq_getElem hj⟩
  · rintro ⟨h1, s, hs1, hs2⟩
    refine ⟨j, ⟨(List.getElem?_eq_some.mp hs1).1, ?_⟩, rfl, h1.symm⟩
    rw [hs1, hs2]

theorem mem_allMatches (names ns : List String) (j i : Nat) :
    (j, i) ∈ allMatches names ns ↔ ∃ s, names[j]? = some s ∧ ns[i]? = some s := by
  simp only [allMatches, List.mem_flatMap, List.mem_range]
  constructor
  · rintro ⟨a, ha, hm⟩
    obtain ⟨h1, h2⟩ := (mem_matchesOf names ns a (j, i)).mp hm
    simp only at h1
    subst h1
    exact h2
  · rintro ⟨s, hs1, hs2⟩
    have hi : i < ns.length := (List.getElem?_eq_some.mp hs2).1
    exact ⟨i, hi, (mem_matchesOf names ns i (j, i)).mpr ⟨rfl, s, hs1, hs2⟩⟩

theorem nodup_allMatches (names ns : List String) : (allMatches names ns).Nodup := by
  unfold allMatches
  rw [List.nodup_flatMap]
  constructor
  · intro i _
    unfold matchesOf
    apply List.Nodup.map
    · intro a b hab
      exact (Prod.mk.inj hab).1
    · exact (List.nodup_range _).filter _
  · apply (List.nodup_range _).pairwise_of_forall_ne
    intro a _ b _ hab q hqa hqb
    exact hab (((mem_matchesOf names ns a q).mp hqa).1.symm.trans
      ((mem_matchesOf names ns b q).mp hqb).1)

/-- C5: for a loaded network and either direction, `FindVariableIndices` returns a list
that contains the pair `(j, i)` exactly when requested name `j` and name `i` of the network
(input names for `input = true`, output names otherwise) are the same string, and no pair
occurs twice. -/
theorem FindVariableIndices_pairs (nets : List CNeuralNetwork) (i_ANN : Nat)
    (names : List String) (input : Bool) (net : CNeuralNetwork)
    (hnet : nets[i_ANN]? = some net) :
    ∃ l, FindVariableIndices nets i_ANN names input = some l ∧
      (∀ j i, (j, i) ∈ l ↔
        ∃ s, names[j]? = some s ∧
          (if input then net.input_names else net.output_names)[i]? = some s) ∧
      l.Nodup :=
  ⟨_, FindVariableIndices_eq nets i_ANN names input net hnet,
    fun j i => mem_allMatches names _ j i, nodup_allMatches names _⟩

/-- Instance of `FindVariableIndices_pairs`: the output names of network 1 of two loaded
networks, matched against the requested names `"z"`, `"y"`. -/
theorem FindVariableIndices_pairs_witness :
    ∃ l, FindVariableIndices [sampleA, sampleB] 1 ["z", "y"] false = some l ∧
      (∀ j i, (j, i) ∈ l ↔
        ∃ s, ["z", "y"][j]? = some s ∧
          (if false = true then sampleB.input_names else sampleB.output_names)[i]? = some s) ∧
      l.Nodup :=
  FindVariableIndices_pairs [sampleA, sampleB] 1 ["z", "y"] false sampleB rfl

/-! ## The coverage checks -/

theorem foundInner_take (map : List (Nat × Nat)) (iVar : Nat) (found : Bool) (n : Nat)
    (hn : n ≤ map.length) :
    forLoop n (fun jVar found => do
      let p ← map[jVar]?
      pure (if p.1 = iVar then true else found)) found =
      some (found || (map.take n).any fun p => p.1 == iVar) := by
  induction n with
  | zero => simp [forLoop_zero]
  | succ n ih =>
    have h1 : n < map.length := hn
    rw [forLoop_succ, ih (by omega), List.take_succ, List.getElem?_eq_getElem h1,
      Option.toList_some, List.any_append]
    simp only [Option.some_bind, Option.bind_eq_bind, List.getElem?_eq_getElem h1,
      Option.pure_def, List.any_cons, List.any_nil, Bool.or_false]
    by_cases h : map[n].1 = iVar
    · simp [h]
    · have hb : (map[n].1 == iVar) = false := by simpa using h
      rw [hb, Bool.or_false, if_neg h]

theorem foundLoop_take (maps : List (List (Nat × Nat))) (iVar n : Nat) (hn : n ≤ maps.length) :
    forLoop n (fun i_map found => do
      let map ← maps[i_map]?
      forLoop map.length (fun jVar found => do
        let p ← map[jVar]?
        pure (if p.1 = iVar then true else found)) found) false =
      some (covered (maps.take n) iVar) := by
  induction n with
  | zero => simp [forLoop_zero, covered]
  | succ n ih =>
    have h1 : n < maps.length := hn
    have key := foundInner_take maps[n] iVar (covered (List.take n maps) iVar) _ le_rfl
    rw [List.take_length] at key
    rw [forLoop_succ, ih (by omega), List.take_succ, List.getElem?_eq_getElem h1,
      Option.toList_some]
    simp only [Option.some_bind, Option.bind_eq_bind, List.getElem?_eq_getElem h1,
      Option.pure_def] at key ⊢
    rw [key]
    simp only [covered, List.any_append, List.any_cons, List.any_nil, Bool.or_false]

theorem foundLoop_eq (m : CIOMap) (f : IOMapEntry → List (Nat × Nat))
    (mapping : Nat → Option (List (Nat × Nat)))
    (hmap : ∀ i, mapping i = (m[i]?).map f) (iVar : Nat) :
    foundLoop mapping m.GetNMLPs iVar = some (covered (m.map f) iVar) := by
  have h := foundLoop_take (m.map f) iVar m.length (by simp)
  rw [List.take_of_length_le (by simp)] at h
  have hfun : mapping = fun i => (m.map f)[i]? := by
    funext i
    rw [hmap i, List.getElem?_map]
  rw [foundLoop, CIOMap.GetNMLPs, hfun]
  exact h

theorem missingLoop_take (m : CIOMap) (f : IOMapEntry → List (Nat × Nat))
    (mapping : Nat → Option (List (Nat × Nat)))
    (hmap : ∀ i, mapping i = (m[i]?).map f) (names : List String) (n : Nat)
    (hn : n ≤ names.length) :
    forLoop n (fun iVar acc => do
      let found ← foundLoop mapping m.GetNMLPs iVar
      if !found then
        let name ← names[iVar]?
        pure (acc.1 ++ [name], false)
      else pure acc) (([] : List String), true) =
      some (((List.range n).filter fun i => !covered (m.map f) i).filterMap (fun i => names[i]?),
        (((List.range n).filter fun i => !covered (m.map f) i).filterMap
          (fun i => names[i]?)).isEmpty) := by
  induction n with
  | zero => simp [forLoop_zero]
  | succ n ih =>
    have h1 : n < names.length := hn
    rw [forLoop_succ, ih (by omega), List.range_succ, List.filter_append,
      List.filterMap_append]
    simp only [Option.some_bind, Option.bind_eq_bind, foundLoop_eq m f mapping hmap]
    cases hc : covered (m.map f) n with
    | true => simp [List.filter_cons, hc]
    | false => simp [List.filter_cons, hc, List.getElem?_eq_getElem h1]

theorem missingLoop_eq (m : CIOMap) (f : IOMapEntry → List (Nat × Nat))
    (mapping : Nat → Option (List (Nat × Nat)))
    (hmap : ∀ i, mapping i = (m[i]?).map f) (names : List String) :
    missingLoop mapping m.GetNMLPs names =
      some (missingNames names (m.map f), (missingNames names (m.map f)).isEmpty) :=
  missingLoop_take m f mapping hmap names names.length le_rfl

theorem spaced_append (l1 l2 : List String) : spaced (l1 ++ l2) = spaced l1 ++ spaced l2 := by
  induction l1 with
  | nil => simp [spaced]
  | cons a l ih => simp [spaced, ih, String.append_assoc]

theorem errorMessage_take (head : String) (missing : List String) (n : Nat)
    (hn : n ≤ missing.length) :
    forLoop n (fun iVar message => do
      let v ← missing[iVar]?
      pure (message ++ (v ++ " "))) head = some (head ++ spaced (missing.take n)) := by
  induction n with
  | zero => simp [forLoop_zero, spaced]
  | succ n ih =>
    have h1 : n < missing.length := hn
    rw [forLoop_succ, ih (by omega), List.take_succ, List.getElem?_eq_getElem h1,
      Option.toList_some, spaced_append]
    simp [List.getElem?_eq_getElem h1, spaced, String.append_assoc]

theorem errorMessage_eq (head : String) (missing : List String) :
    errorMessage head missing =
      some (head ++ spaced missing ++ "are not present in any loaded ANN.") := by
  have h := errorMessage_take head missing missing.length le_rfl
  rw [List.take_length] at h
  simp only [errorMessage, Option.bind_eq_bind, Option.pure_def] at h ⊢
  rw [h, Option.some_bind]

theorem CheckUseOfOutputs_eq (output_names : List String) (m : CIOMap) :
    CheckUseOfOutputs output_names m =
      some (if missingNames output_names (m.map (·.Output_Map)) = [] then Except.ok true
        else Except.error ("Outputs " ++ spaced (missingNames output_names (m.map (·.Output_Map)))
          ++ "are not present in any loaded ANN.")) := by
  rw [CheckUseOfOutputs, missingLoop_eq m (·.Output_Map) m.GetOutputMapping (fun _ => rfl)]
  cases h : missingNames output_names (m.map (·.Output_Map)) with
  | nil => simp
  | cons a l => simp [errorMessage_eq]

theorem CheckUseOfInputs_eq (input_names : List String) (m : CIOMap) :
    CheckUseOfInputs input_names m =
      some (if missingNames input_names (m.map (·.Input_Map)) = [] then Except.ok true
        else Except.error ("Inputs " ++ spaced (missingNames input_names (m.map (·.Input_Map)))
          ++ "are not present in any loaded ANN.")) := by
  rw [CheckUseOfInputs, missingLoop_eq m (·.Input_Map) m.GetInputMapping (fun _ => rfl)]
  cases h : missingNames input_names (m.map (·.Input_Map)) with
  | nil => simp
  | cons a l => simp [errorMessage_eq]

theorem covered_eq_false (m : CIOMap) (f : IOMapEntry → List (Nat × Nat)) (i : Nat) :
    covered (m.map f) i = false ↔ ∀ e ∈ m, ∀ p ∈ f e, p.1 ≠ i := by
  rw [← Bool.not_eq_true, covered, List.any_eq_true]
  constructor
  · intro h e he p hp hpi
    exact h ⟨f e, List.mem_map_of_mem f he, List.any_eq_true.mpr ⟨p, hp, by simpa using hpi⟩⟩
  · rintro h ⟨l, hl, hany⟩
    obtain ⟨e, he, rfl⟩ := List.mem_map.mp hl
    obtain ⟨p, hp, hpi⟩ := List.any_eq_true.mp hany
    exact h e he p hp (by simpa using hpi)

theorem mem_missingNames (names : List String) (m : CIOMap)
    (f : IOMapEntry → List (Nat × Nat)) (s : String) :
    s ∈ missingNames names (m.map f) ↔
      ∃ i, names[i]? = some s ∧ ∀ e ∈ m, ∀ p ∈ f e, p.1 ≠ i := by
  simp only [missingNames, List.mem_filterMap, List.mem_filter, List.mem_range,
    Bool.not_eq_true', covered_eq_false]
  constructor
  · rintro ⟨i, ⟨_, h⟩, hs⟩
    exact ⟨i, hs, h⟩
  · rintro ⟨i, hs, h⟩
    exact ⟨i, ⟨(List.getElem?_eq_some.mp hs).1, h⟩, hs⟩

theorem missingNames_eq_nil (names : List String) (m : CIOMap)
    (f : IOMapEntry → List (Nat × Nat)) :
    missingNames names (m.map f) = [] ↔
      ¬ ∃ i, i < names.length ∧ ∀ e ∈ m, ∀ p ∈ f e, p.1 ≠ i := by
  rw [List.eq_nil_iff_forall_not_mem]
  constructor
  · rintro h ⟨i, hi, hc⟩
    exact h names[i] ((mem_missingNames names m f _).mpr ⟨i, List.getElem?_eq_getElem hi, hc⟩)
  · intro h s hs
    obtain ⟨i, hi, hc⟩ := (mem_missingNames names m f s).mp hs
    exact h ⟨i, (List.getElem?_eq_some.mp hi).1, hc⟩

theorem spaced_mem (l : List String) (s : String) (h : s ∈ l) :
    ∃ a b, spaced l = a ++ s ++ b := by
  obtain ⟨l1, l2, rfl⟩ := List.append_of_mem h
  exact ⟨spaced l1, " " ++ spaced l2, by
    rw [spaced_append, spaced, String.append_assoc, String.append_assoc]⟩

theorem FindVariableIndices_some (nets : List CNeuralNetwork) (i_ANN : Nat)
    (names : List String) (input : Bool) (l : List (Nat × Nat))
    (h : FindVariableIndices nets i_ANN names input = some l) :
    ∃ net, nets[i_ANN]? = some net := by
  cases hnet : nets[i_ANN]? with
  | none => simp [FindVariableIndices, hnet] at h
  | some net => exact ⟨net, rfl⟩

/-! ## C6: a requested output that no network has -/

/-- C6: when the output mappings of the map are the results of
`FindVariableIndices(input = false)` and some requested output name is the output name of
no loaded network, `CheckUseOfOutputs` raises the error and the message contains the
name. -/
theorem CheckUseOfOutputs_unmatched (nets : List CNeuralNetwork) (output_names : List String)
    (m : CIOMap)
    (hm : ∀ e ∈ m, FindVariableIndices nets e.MLP_index output_names false = some e.Output_Map)
    (s : String) (hs : s ∈ output_names) (hno : ∀ net ∈ nets, s ∉ net.output_names) :
    ∃ msg, CheckUseOfOutputs output_names m = some (Except.error msg) ∧
      ∃ a b, msg = a ++ s ++ b := by
  obtain ⟨j, hj⟩ := List.mem_iff_getElem?.mp hs
  have hmiss : s ∈ missingNames output_names (m.map (·.Output_Map)) := by
    rw [mem_missingNames]
    refine ⟨j, hj, ?_⟩
    intro e he p hp hpj
    obtain ⟨net, hnet⟩ := FindVariableIndices_some _ _ _ _ _ (hm e he)
    have heq := hm e he
    rw [FindVariableIndices_eq nets e.MLP_index output_names false net hnet] at heq
    have hmem : (p.1, p.2) ∈ allMatches output_names net.output_names := by
      have := Option.some.inj heq
      simp only [Bool.false_eq_true, if_false] at this
      rw [this]
      exact hp
    obtain ⟨s1, h1, h2⟩ := (mem_allMatches _ _ _ _).mp hmem
    rw [hpj, hj] at h1
    cases h1
    exact hno net (List.getElem?_mem hnet) (List.getElem?_mem h2)
  obtain ⟨a, b, hab⟩ := spaced_mem _ s hmiss
  have hne : missingNames output_names (m.map (·.Output_Map)) ≠ [] :=
    List.ne_nil_of_mem hmiss
  refine ⟨_, by rw [CheckUseOfOutputs_eq, if_neg hne], "Outputs " ++ a,
    b ++ "are not present in any loaded ANN.", ?_⟩
  rw [hab]
  simp only [String.append_assoc]

/-- Instance of `CheckUseOfOutputs_unmatched`: the outputs `"y"`, `"z"` are requested from
two networks whose only output is `"y"`; the error names `"z"`. -/
theorem CheckUseOfOutputs_unmatched_witness :
    ∃ msg, CheckUseOfOutputs ["y", "z"] sampleMap = some (Except.error msg) ∧
      ∃ a b, msg = a ++ "z" ++ b :=
  CheckUseOfOutputs_unmatched [sampleA, sampleB] ["y", "z"] sampleMap
    (by
      intro e he
      simp only [sampleMap, List.mem_cons, List.mem_singleton, List.not_mem_nil, or_false] at he
      rcases he with rfl | rfl <;> decide!)
    "z" (by decide) (by
      intro net hnet
      simp only [List.mem_cons, List.mem_singleton, List.not_mem_nil, or_false] at hnet
      rcases hnet with rfl | rfl <;> decide)

/-! ## C7 and C8: the coverage checks -/

/-- C7: `CheckUseOfOutputs` returns; it raises the error exactly when some requested output
index is the first component of no pair of the output mapping of any entry, and returns
`true` otherwise; the message is `"Outputs "`, the names of all such indices in requested
order, each followed by one space, and `"are not present in any loaded ANN."`; the names
listed are those of the uncovered indices and no others. -/
theorem CheckUseOfOutputs_spec (output_names : List String) (m : CIOMap) :
    ∃ res, CheckUseOfOutputs output_names m = some res ∧
      ((∃ msg, res = Except.error msg) ↔
        ∃ i, i < output_names.length ∧ ∀ e ∈ m, ∀ p ∈ e.Output_Map, p.1 ≠ i) ∧
      ((¬ ∃ i, i < output_names.length ∧ ∀ e ∈ m, ∀ p ∈ e.Output_Map, p.1 ≠ i) →
        res = Except.ok true) ∧
      (∀ msg, res = Except.error msg →
        msg = "Outputs " ++ spaced (missingNames output_names (m.map (·.Output_Map))) ++
          "are not present in any loaded ANN.") ∧
      (∀ s, s ∈ missingNames output_names (m.map (·.Output_Map)) ↔
        ∃ i, output_names[i]? = some s ∧ ∀ e ∈ m, ∀ p ∈ e.Output_Map, p.1 ≠ i) := by
  refine ⟨_, CheckUseOfOutputs_eq output_names m, ?_, ?_, ?_,
    mem_missingNames output_names m (·.Output_Map)⟩
  · rw [← not_iff_not, ← missingNames_eq_nil output_names m (·.Output_Map)]
    by_cases h : missingNames output_names (m.map (·.Output_Map)) = []
    · simp [h]
    · simp [h]
  · intro h
    rw [if_pos ((missingNames_eq_nil output_names m (·.Output_Map)).mpr h)]
  · intro msg h
    by_cases hnil : missingNames output_names (m.map (·.Output_Map)) = []
    · rw [if_pos hnil] at h
      cases h
    · rw [if_neg hnil] at h
      exact (Except.error.inj h).symm

/-- C8: `CheckUseOfInputs` returns; it raises the error exactly when some requested input
index is the first component of no pair of the input mapping of any entry, and returns
`true` otherwise; the message is `"Inputs "`, the names of all such indices in requested
order, each followed by one space, and `"are not present in any loaded ANN."`. -/
theorem CheckUseOfInputs_spec (input_names : List String) (m : CIOMap) :
    ∃ res, CheckUseOfInputs input_names m = some res ∧
      ((∃ msg, res = Except.error msg) ↔
        ∃ i, i < input_names.length ∧ ∀ e ∈ m, ∀ p ∈ e.Input_Map, p.1 ≠ i) ∧
      ((¬ ∃ i, i < input_names.length ∧ ∀ e ∈ m, ∀ p ∈ e.Input_Map, p.1 ≠ i) →
        res = Except.ok true) ∧
      (∀ msg, res = Except.error msg →
        msg = "Inputs " ++ spaced (missingNames input_names (m.map (·.Input_Map))) ++
          "are not present in any loaded ANN.") ∧
      (∀ s, s ∈ missingNames input_names (m.map (·.Input_Map)) ↔
        ∃ i, input_names[i]? = some s ∧ ∀ e ∈ m, ∀ p ∈ e.Input_Map, p.1 ≠ i) := by
  refine ⟨_, CheckUseOfInputs_eq input_names m, ?_, ?_, ?_,
    mem_missingNames input_names m (·.Input_Map)⟩
  · rw [← not_iff_not, ← missingNames_eq_nil input_names m (·.Input_Map)]
    by_cases h : missingNames input_names (m.map (·.Input_Map)) = []
    · simp [h]
    · simp [h]
  · intro h
    rw [if_pos ((missingNames_eq_nil input_names m (·.Input_Map)).mpr h)]
  · intro msg h
    by_cases hnil : missingNames input_names (m.map (·.Input_Map)) = []
    · rw [if_pos hnil] at h
      cases h
    · rw [if_neg hnil] at h
      exact (Except.error.inj h).symm

/-! ## C9: two networks with the ranges `[0, 1]` and `[2, 3]` -/

theorem scenario_wellFormed (lo1 hi1 lo2 hi2 : su2double)
    (gA gB : List su2double → su2double) (cA cB : List su2double) (x o : su2double) :
    WellFormed [singleNet lo1 hi1 gA, singleNet lo2 hi2 gB] sampleMap [x] [cA, cB] [o] := by
  refine ⟨rfl, ?_⟩
  intro e he
  simp only [sampleMap, List.mem_cons, List.mem_singleton, List.not_mem_nil, or_false] at he
  rcases he with rfl | rfl
  · exact ⟨singleNet lo1 hi1 gA,
      ⟨rfl, by simp [singleNet], by simp, by simp, by simp [singleNet]⟩⟩
  · exact ⟨singleNet lo2 hi2 gB,
      ⟨rfl, by simp [singleNet], by simp, by simp, by simp [singleNet]⟩⟩

theorem scenario_pairs (lo hi x : su2double) (g : List su2double → su2double) (i : Nat) :
    limitPairs (singleNet lo hi g)
      (gatherInputs { MLP_index := i, Input_Map := [(0, 0)], Output_Map := [(0, 0)] } [x]) =
      [(x, lo, hi)] := rfl

theorem scenario_scan_half (gA gB : List su2double → su2double) (cA cB : List su2double)
    (o : su2double) :
    scanPure [singleNet 0 1 gA, singleNet 2 3 gB] sampleMap [1 / 2] (scanInit [cA, cB] [o]) 2 =
      { ANN_outputs := [[gA [1 / 2]], cB], outputs := [gA [1 / 2]], MLP_was_evaluated := true,
        distance_to_query := su2val.fin 0, i_ANN_nearest := 0, i_map_nearest := 0 } := by
  have e1 : inRangeB [((1 / 2 : su2double), (0 : su2double), (1 : su2double))] = true := by
    decide!
  have e2 : inRangeB [((1 / 2 : su2double), (2 : su2double), (3 : su2double))] = false := by
    decide!
  have d1 : distOf [((1 / 2 : su2double), (0 : su2double), (1 : su2double))] = su2val.fin 0 := by
    decide!
  have d2 : distOf [((1 / 2 : su2double), (2 : su2double), (3 : su2double))] = su2val.fin 4 := by
    decide!
  have q1 : su2val.sqrt_lt (su2val.fin 0) (su2val.fin (10 ^ 20)) = true := by decide!
  have q2 : su2val.sqrt_lt (su2val.fin 4) (su2val.fin 0) = false := by decide!
  simp only [scanPure, sampleMap, List.getElem?_cons_zero, List.getElem?_cons_succ, scanStep,
    scenario_pairs, e1, e2, d1, d2, updateNearest, evaluateEntry, scanInit, q1, if_true]
  simp [singleNet, gatherInputs, writeAll, q2]

theorem scenario_scan_ten (gA gB : List su2double → su2double) (cA cB : List su2double)
    (o : su2double) :
    scanPure [singleNet 0 1 gA, singleNet 2 3 gB] sampleMap [10] (scanInit [cA, cB] [o]) 2 =
      { ANN_outputs := [cA, cB], outputs := [o], MLP_was_evaluated := false,
        distance_to_query := su2val.fin (225 / 4), i_ANN_nearest := 1, i_map_nearest := 1 } := by
  have e1 : inRangeB [((10 : su2double), (0 : su2double), (1 : su2double))] = false := by
    decide!
  have e2 : inRangeB [((10 : su2double), (2 : su2double), (3 : su2double))] = false := by
    decide!
  have d1 : distOf [((10 : su2double), (0 : su2double), (1 : su2double))] =
      su2val.fin (361 / 4) := by decide!
  have d2 : distOf [((10 : su2double), (2 : su2double), (3 : su2double))] =
      su2val.fin (225 / 4) := by decide!
  have q1 : su2val.sqrt_lt (su2val.fin (361 / 4)) (su2val.fin (10 ^ 20)) = true := by decide!
  have q2 : su2val.sqrt_lt (su2val.fin (225 / 4)) (su2val.fin (361 / 4)) = true := by decide!
  simp only [scanPure, sampleMap, List.getElem?_cons_zero, List.getElem?_cons_succ, scanStep,
    scenario_pairs, e1, e2, d1, d2, updateNearest, scanInit, Bool.false_eq_true, if_false]
  simp only [q1, if_true]
  simp only [q2, if_true]

/-- C9: two networks with one input and one output `"y"`, network 0 (A) with the range
`[0, 1]` and network 1 (B) with the range `[2, 3]`, scanned in this order, whose mappings
are those that `FindVariableIndices` finds for the request of `"x"` and `"y"`. For the query
`1/2` the call returns `0`, the slot holds the prediction of A, and the cached output of B
is untouched. For the query `10` the distances are `361/4 = 90.25` and `225/4 = 56.25`, the
call returns `1` and the slot holds the prediction of B. -/
theorem scenario_two_networks (gA gB : List su2double → su2double) (cA cB : List su2double)
    (o : su2double) :
    (FindVariableIndices [singleNet 0 1 gA, singleNet 2 3 gB] 0 ["x"] true = some [(0, 0)] ∧
      FindVariableIndices [singleNet 0 1 gA, singleNet 2 3 gB] 0 ["y"] false = some [(0, 0)] ∧
      FindVariableIndices [singleNet 0 1 gA, singleNet 2 3 gB] 1 ["x"] true = some [(0, 0)] ∧
      FindVariableIndices [singleNet 0 1 gA, singleNet 2 3 gB] 1 ["y"] false = some [(0, 0)]) ∧
    PredictANN [singleNet 0 1 gA, singleNet 2 3 gB] sampleMap [1 / 2] [cA, cB] [o] =
      some { ANN_outputs := [[gA [1 / 2]], cB], outputs := [gA [1 / 2]], status := 0 } ∧
    rangeLoop (singleNet 0 1 gA) [10] = some (false, su2val.fin (361 / 4)) ∧
    rangeLoop (singleNet 2 3 gB) [10] = some (false, su2val.fin (225 / 4)) ∧
    PredictANN [singleNet 0 1 gA, singleNet 2 3 gB] sampleMap [10] [cA, cB] [o] =
      some { ANN_outputs := [cA, [gB [10]]], outputs := [gB [10]], status := 1 } := by
  have hm : allMatches ["x"] ["x"] = [(0, 0)] ∧ allMatches ["y"] ["y"] = [(0, 0)] := by
    constructor <;> decide
  refine ⟨⟨?_, ?_, ?_, ?_⟩, ?_, ?_, ?_, ?_⟩
  · rw [FindVariableIndices_eq _ 0 _ true (singleNet 0 1 gA) rfl]
    exact congrArg some hm.1
  · rw [FindVariableIndices_eq _ 0 _ false (singleNet 0 1 gA) rfl]
    exact congrArg some hm.2
  · rw [FindVariableIndices_eq _ 1 _ true (singleNet 2 3 gB) rfl]
    exact congrArg some hm.1
  · rw [FindVariableIndices_eq _ 1 _ false (singleNet 2 3 gB) rfl]
    exact congrArg some hm.2
  · have hs := scenario_scan_half gA gB cA cB o
    have h := PredictANN_evaluated _ _ _ _ _ (scenario_wellFormed 0 1 2 3 gA gB cA cB (1 / 2) o)
      (by rw [show sampleMap.length = 2 from rfl, hs])
    rw [h, show sampleMap.length = 2 from rfl, hs]
  · rw [rangeLoop_eq _ _ (by simp [singleNet])]
    have : limitPairs (singleNet 0 1 gA) [10] = [(10, 0, 1)] := rfl
    rw [this]
    decide!
  · rw [rangeLoop_eq _ _ (by simp [singleNet])]
    have : limitPairs (singleNet 2 3 gB) [10] = [(10, 2, 3)] := rfl
    rw [this]
    decide!
  · have hs := scenario_scan_ten gA gB cA cB o
    have h := PredictANN_fallback _ _ _ _ _ (scenario_wellFormed 0 1 2 3 gA gB cA cB 10 o)
      (by rw [show sampleMap.length = 2 from rfl, hs])
      { MLP_index := 1, Input_Map := [(0, 0)], Output_Map := [(0, 0)] } (singleNet 2 3 gB)
      (by rw [show sampleMap.length = 2 from rfl, hs]; rfl)
      (by rw [show sampleMap.length = 2 from rfl, hs]; rfl)
      (by simp) (by simp [singleNet])
    rw [h, show sampleMap.length = 2 from rfl, hs]
    simp [singleNet, gatherInputs, writeAll]

/-! ## C10: several networks that write the same output slot -/

/-- C13 (evaluation of the code where the claim fails): network 0 has the output `"z"` and
network 1 the output `"y"`, so the map of the request of `"y"` has the single entry of
network 1. For the query `1e21` the distance `d` of network 1 fails `sqrt(d) < 1e20`, and
for a network 1 with the range `[1, 1]` and the query `5` the distance is infinite: in both
cases the scan loop ends with `i_ANN_nearest = 0` and `i_map_nearest = 0`, while entry 0 is
network 1, and the fallback writes output 0 of network 0 into the slot of `"y"`. -/
theorem scan_nearest_default_mismatch :
    (FindVariableIndices [sampleZ, sampleB] 0 ["y"] false = some [] ∧
      FindVariableIndices [sampleZ, sampleB] 1 ["y"] false = some [(0, 0)]) ∧
    (scanLoop [sampleZ, sampleB] sampleMapOne [10 ^ 21] [[], []] [0] =
      some { ANN_outputs := [[], []], outputs := [0], MLP_was_evaluated := false,
             distance_to_query := su2val.fin (10 ^ 20), i_ANN_nearest := 0,
             i_map_nearest := 0 } ∧
      sampleMapOne.GetMLPIndex 0 = some 1 ∧
      PredictANN [sampleZ, sampleB] sampleMapOne [10 ^ 21] [[], []] [0] =
        some { ANN_outputs := [sampleZ.forward [10 ^ 21], []],
               outputs := sampleZ.forward [10 ^ 21], status := 1 }) ∧
    (rangeLoop sampleD [5] = some (false, su2val.inf) ∧
      scanLoop [sampleZ, sampleD] sampleMapOne [5] [[], []] [0] =
        some { ANN_outputs := [[], []], outputs := [0], MLP_was_evaluated := false,
               distance_to_query := su2val.fin (10 ^ 20), i_ANN_nearest := 0,
               i_map_nearest := 0 } ∧
      PredictANN [sampleZ, sampleD] sampleMapOne [5] [[], []] [0] =
        some { ANN_outputs := [[105], []], outputs := [105], status := 1 }) := by
  refine ⟨⟨?_, ?_⟩, ⟨?_, ?_, ?_⟩, ⟨?_, ?_, ?_⟩⟩ <;> decide!

/-! ## C14: every network input requested exactly once -/

theorem indexFilter_length (names : List String) (s : String) :
    ((List.range names.length).filter fun j => names[j]? == some s).length = names.count s := by
  induction names using List.reverseRecOn with
  | nil => rfl
  | append_singleton l a ih =>
    have hcongr : (List.range l.length).filter (fun j => (l ++ [a])[j]? == some s) =
        (List.range l.length).filter (fun j => l[j]? == some s) := by
      apply List.filter_congr
      intro j hj
      rw [List.mem_range] at hj
      rw [List.getElem?_append_left hj]
    have hlast : (l ++ [a])[l.length]? = some a := by
      rw [List.getElem?_append_right (le_refl _)]
      simp
    rw [List.length_append, List.length_singleton, List.range_succ, List.filter_append,
      List.length_append, hcongr, ih, List.count_append]
    congr 1
    by_cases h : a = s
    · simp [List.filter_cons, hlast, h]
    · simp [List.filter_cons, hlast, h, List.count_singleton]

theorem matchesOf_once (names ns : List String) (k : Nat) (s : String)
    (hk : ns[k]? = some s) (hs : names.count s = 1) :
    ∃ j, matchesOf names ns k = [(j, k)] ∧ names[j]? = some s := by
  have hlen : (matchesOf names ns k).length = 1 := by
    rw [matchesOf, List.length_map, hk, indexFilter_length, hs]
  obtain ⟨q, hq⟩ := List.length_eq_one.mp hlen
  have hmem : q ∈ matchesOf names ns k := by rw [hq]; exact List.mem_singleton_self q
  obtain ⟨h1, s1, h2, h3⟩ := (mem_matchesOf names ns k q).mp hmem
  rw [hk] at h3
  cases h3
  exact ⟨q.1, by rw [hq, ← h1], h2⟩

theorem flatMap_singletons (f : Nat → List (Nat × Nat)) (P : Nat → Nat → Prop) (n : Nat)
    (h : ∀ k, k < n → ∃ j, f k = [(j, k)] ∧ P j k) :
    ((List.range n).flatMap f).length = n ∧
      ∀ k, k < n → ∃ j, ((List.range n).flatMap f)[k]? = some (j, k) ∧ P j k := by
  induction n with
  | zero => exact ⟨rfl, fun k hk => absurd hk (Nat.not_lt_zero k)⟩
  | succ n ih =>
    obtain ⟨hl, hi⟩ := ih fun k hk => h k (Nat.lt_succ_of_lt hk)
    obtain ⟨jn, hfn, hPn⟩ := h n (Nat.lt_succ_self n)
    rw [List.range_succ, List.flatMap_append]
    have hsing : List.flatMap [n] f = [(jn, n)] := by simp [List.flatMap, hfn]
    rw [hsing]
    refine ⟨by rw [List.length_append, hl, List.length_singleton], ?_⟩
    intro k hk
    rcases Nat.lt_succ_iff_lt_or_eq.mp hk with hlt | heq
    · obtain ⟨j, hj, hP⟩ := hi k hlt
      exact ⟨j, by rw [List.getElem?_append_left (by rw [hl]; exact hlt)]; exact hj, hP⟩
    · subst heq
      refine ⟨jn, ?_, hPn⟩
      rw [List.getElem?_append_right (by rw [hl]), hl, Nat.sub_self]
      rfl

/-- C14: when every input name of a loaded network occurs exactly once among the requested
input names, `FindVariableIndices(input = true)` returns one pair per network input and its
`k`-th pair is `(j, k)` with requested name `j` equal to input name `k` of the network;
hence the `k`-th input gathered through this mapping is the query value of the requested
name that equals input name `k`, the input whose range `GetInputNorm(k)` it is compared
with. -/
theorem FindVariableIndices_once (nets : List CNeuralNetwork) (i_ANN : Nat)
    (names : List String) (net : CNeuralNetwork) (hnet : nets[i_ANN]? = some net)
    (honce : ∀ s ∈ net.input_names, names.count s = 1) :
    ∃ l, FindVariableIndices nets i_ANN names true = some l ∧
      l.length = net.input_names.length ∧
      (∀ (k : Nat) (s : String), net.input_names[k]? = some s →
        ∃ j, l[k]? = some (j, k) ∧ names[j]? = some s) ∧
      (∀ (m : CIOMap) (i_map : Nat) (e : IOMapEntry) (inputs : List su2double),
        m[i_map]? = some e → e.Input_Map = l → names.length ≤ inputs.length →
        ∃ xs, m.GetMLPInputs i_map inputs = some xs ∧ xs.length = net.input_names.length ∧
          ∀ (k : Nat) (s : String), net.input_names[k]? = some s →
            ∃ (j : Nat) (x : su2double),
              names[j]? = some s ∧ inputs[j]? = some x ∧ xs[k]? = some x) := by
  have hflat := flatMap_singletons (matchesOf names net.input_names)
    (fun j k => names[j]? = net.input_names[k]?) net.input_names.length
    (by
      intro k hk
      obtain ⟨j, hj1, hj2⟩ := matchesOf_once names net.input_names k net.input_names[k]
        (List.getElem?_eq_getElem hk) (honce _ (List.getElem_mem hk))
      exact ⟨j, hj1, hj2.trans (List.getElem?_eq_getElem hk).symm⟩)
  have hpair : ∀ (k : Nat) (s : String), net.input_names[k]? = some s →
      ∃ j, (allMatches names net.input_names)[k]? = some (j, k) ∧ names[j]? = some s := by
    intro k s hks
    obtain ⟨j, hj, hP⟩ := hflat.2 k (List.getElem?_eq_some.mp hks).1
    exact ⟨j, hj, hP.trans hks⟩
  refine ⟨_, FindVariableIndices_eq nets i_ANN names true net hnet, hflat.1, hpair, ?_⟩
  intro m i_map e inputs he hmap0 hlen
  have hmap : e.Input_Map = allMatches names net.input_names := hmap0
  have hidx : ∀ p ∈ e.Input_Map, p.1 < inputs.length := by
    intro p hp
    rw [hmap] at hp
    obtain ⟨s1, h1, _⟩ := (mem_allMatches names net.input_names p.1 p.2).mp hp
    exact lt_of_lt_of_le (List.getElem?_eq_some.mp h1).1 hlen
  refine ⟨_, GetMLPInputs_eq m i_map e inputs he hidx, ?_, ?_⟩
  · rw [gatherInputs, List.length_map, hmap]
    exact hflat.1
  · intro k s hks
    obtain ⟨j, hj, hn⟩ := hpair k s hks
    have hjl : j < inputs.length := lt_of_lt_of_le (List.getElem?_eq_some.mp hn).1 hlen
    refine ⟨j, inputs[j], hn, List.getElem?_eq_getElem hjl, ?_⟩
    rw [gatherInputs, hmap, List.getElem?_map, hj, Option.map_some',
      List.getD_eq_getElem _ _ hjl]

/-- Instance of `FindVariableIndices_once`: the input `"x"` of network 1 is the second of
the requested names `"t"`, `"x"`; the only pair is `(1, 0)`. -/
theorem FindVariableIndices_once_witness :
    ∃ l, FindVariableIndices [sampleA, sampleB] 1 ["t", "x"] true = some l ∧ l.length = 1 ∧
      ∃ j, l[0]? = some (j, 0) ∧ ["t", "x"][j]? = some "x" := by
  obtain ⟨l, hl, hlen, hpair, _⟩ := FindVariableIndices_once [sampleA, sampleB] 1 ["t", "x"]
    sampleB rfl (by
      intro s hs
      simp only [sampleB, List.mem_singleton] at hs
      subst hs
      decide)
  exact ⟨l, hl, hlen, hpair 0 "x" rfl⟩

/-! ## Invariants of loops -/

theorem forLoop_preserves {σ : Type} (P : σ → Prop) (n : Nat) (body : Nat → σ → Option σ)
    (s s1 : σ) (h : forLoop n body s = some s1) (h0 : P s)
    (hstep : ∀ i a b, i < n → P a → body i a = some b → P b) : P s1 := by
  induction n generalizing s1 with
  | zero =>
    rw [forLoop_zero] at h
    cases h
    exact h0
  | succ n ih =>
    rw [forLoop_succ] at h
    obtain ⟨a, ha, hb⟩ := Option.bind_eq_some.mp h
    exact hstep n a s1 (Nat.lt_succ_self n)
      (ih a ha fun i x y hi => hstep i x y (Nat.lt_succ_of_lt hi)) hb

/-! ## The query path over the values of a double: the loops -/

namespace IEEE

theorem ieee_le_lt (a b : su2double) (h : a.le b = true) : b.lt a = false := by
  cases a <;> cases b <;> simp_all [su2double.le, su2double.lt]

theorem ieee_lt_le (a b : su2double) (h : b.lt a = false) (ha : a ≠ su2double.nan)
    (hb : b ≠ su2double.nan) : a.le b = true := by
  cases a <;> cases b <;> simp_all [su2double.le, su2double.lt]

theorem ieee_rangeLoop_take (ops : su2ops) (net : CNeuralNetwork) (xs : List su2double)
    (hlen : xs.length ≤ net.input_norm.length) (n : Nat) (hn : n ≤ xs.length) :
    forLoop n (rangeBody ops net xs) (true, su2double.fin 0) =
      some (passesB ((limitPairs net.input_norm xs).take n),
        distOf ops ((limitPairs net.input_norm xs).take n)) := by
  induction n with
  | zero => simp [forLoop_zero, passesB, distOf]
  | succ n ih =>
    have h1 : n < xs.length := hn
    have h2 : n < net.input_norm.length := by omega
    rw [forLoop_succ, ih (by omega)]
    have hz : (limitPairs net.input_norm xs)[n]? = some (xs[n], net.input_norm[n]) := by
      simp [limitPairs, List.getElem?_zip_eq_some, List.getElem?_eq_getElem, h1, h2]
    rw [List.take_succ, hz]
    simp only [Option.some_bind, rangeBody, CNeuralNetwork.GetInputNorm,
      List.getElem?_eq_getElem h1, List.getElem?_eq_getElem h2, Option.bind_eq_bind,
      Option.pure_def, Option.toList_some, passesB, distOf, List.all_append, List.foldl_append,
      List.all_cons, List.all_nil, List.foldl_cons, List.foldl_nil, Bool.and_true]
    congr 2
    cases hc : ((xs[n]).lt (net.input_norm[n]).1 || (net.input_norm[n]).2.lt xs[n]) <;> simp

theorem ieee_rangeLoop_eq (ops : su2ops) (net : CNeuralNetwork) (xs : List su2double)
    (hlen : xs.length ≤ net.input_norm.length) :
    rangeLoop ops net xs =
      some (passesB (limitPairs net.input_norm xs), distOf ops (limitPairs net.input_norm xs)) := by
  have h := ieee_rangeLoop_take ops net xs hlen xs.length le_rfl
  have ht : (limitPairs net.input_norm xs).take xs.length = limitPairs net.input_norm xs := by
    apply List.take_of_length_le
    simp [limitPairs, List.length_zip]
  rw [ht] at h
  exact h

theorem ieee_passesB_iff (norm : List (su2double × su2double)) (xs : List su2double) :
    passesB (limitPairs norm xs) = true ↔ PassesTest norm xs := by
  unfold passesB limitPairs PassesTest
  rw [List.all_eq_true]
  constructor
  · intro h i x lim hx hlim
    have hmem : (x, lim) ∈ xs.zip norm := by
      rw [List.mem_iff_getElem?]
      exact ⟨i, by simp [List.getElem?_zip_eq_some, hx, hlim]⟩
    simpa using h _ hmem
  · intro h q hq
    obtain ⟨i, hi⟩ := List.mem_iff_getElem?.mp hq
    rw [List.getElem?_zip_eq_some] at hi
    simpa using h i q.1 q.2 hi.1 hi.2

theorem ieee_inside_passes (norm : List (su2double × su2double)) (xs : List su2double)
    (h : InsideRange norm xs) : PassesTest norm xs := by
  intro i x lim hx hlim
  obtain ⟨h1, h2⟩ := h i x lim hx hlim
  exact ⟨ieee_le_lt _ _ h1, ieee_le_lt _ _ h2⟩

theorem ieee_passes_inside (norm : List (su2double × su2double)) (xs : List su2double)
    (hn : NoNaN norm xs) (h : PassesTest norm xs) : InsideRange norm xs := by
  intro i x lim hx hlim
  obtain ⟨h1, h2⟩ := h i x lim hx hlim
  obtain ⟨n1, n2, n3⟩ := hn i x lim hx hlim
  exact ⟨ieee_lt_le _ _ h1 n2 n1, ieee_lt_le _ _ h2 n1 n3⟩

theorem ieee_writeAll_length (out : List su2double) (l : List (Nat × Nat))
    (outputs : List su2double) : (writeAll out l outputs).length = outputs.length := by
  unfold writeAll
  induction l generalizing outputs with
  | nil => rfl
  | cons a l ih => rw [List.foldl_cons, ih, List.length_set]

theorem ieee_writeAll_append (out : List su2double) (l1 l2 : List (Nat × Nat))
    (outputs : List su2double) :
    writeAll out (l1 ++ l2) outputs = writeAll out l2 (writeAll out l1 outputs) := by
  simp [writeAll, List.foldl_append]

theorem ieee_writeAll_other (out : List su2double) (l : List (Nat × Nat))
    (outputs : List su2double) (j : Nat) (h : ∀ q ∈ l, q.1 ≠ j) :
    (writeAll out l outputs)[j]? = outputs[j]? := by
  unfold writeAll
  induction l generalizing outputs with
  | nil => rfl
  | cons a l ih =>
    rw [List.foldl_cons, ih _ fun q hq => h q (List.mem_cons_of_mem _ hq),
      List.getElem?_set_ne (h a (List.mem_cons_self _ _))]

theorem ieee_writeAll_last (out : List su2double) (l1 l2 : List (Nat × Nat)) (p : Nat × Nat)
    (outputs : List su2double) (j : Nat) (hj : j < outputs.length) (hp : p.1 = j)
    (h : ∀ q ∈ l2, q.1 ≠ j) :
    (writeAll out (l1 ++ p :: l2) outputs)[j]? = some (out.getD p.2 su2double.nan) := by
  rw [ieee_writeAll_append]
  have hlen := ieee_writeAll_length out l1 outputs
  generalize writeAll out l1 outputs = o1 at hlen
  have hcons : writeAll out (p :: l2) o1 =
      writeAll out l2 (o1.set p.1 (out.getD p.2 su2double.nan)) := rfl
  rw [hcons, ieee_writeAll_other out l2 _ j h, hp, List.getElem?_set_self (by omega)]

theorem ieee_writeLoop_take (m : CIOMap) (nets : List CNeuralNetwork) (i_map i_ANN : Nat)
    (e : IOMapEntry) (net : CNeuralNetwork) (outputs : List su2double)
    (he : m[i_map]? = some e) (hnet : nets[i_ANN]? = some net)
    (hb : ∀ p ∈ e.Output_Map, p.1 < outputs.length ∧ p.2 < net.ANN_outputs.length)
    (n : Nat) (hn : n ≤ e.Output_Map.length) :
    forLoop n (fun i outputs => do
      let k ← m.GetOutputIndex i_map i
      let j ← m.GetMLPOutputIndex i_map i
      let net ← nets[i_ANN]?
      let v ← net.GetANNOutput j
      if k < outputs.length then pure (outputs.set k v) else none) outputs
      = some (writeAll net.ANN_outputs (e.Output_Map.take n) outputs) := by
  induction n with
  | zero => simp [forLoop_zero, writeAll]
  | succ n ih =>
    have h1 : n < e.Output_Map.length := hn
    rw [forLoop_succ, ih (by omega), List.take_succ, List.getElem?_eq_getElem h1,
      Option.toList_some, ieee_writeAll_append]
    have hp := hb _ (List.getElem_mem h1)
    have ho1 := ieee_writeAll_length net.ANN_outputs (List.take n e.Output_Map) outputs
    generalize writeAll net.ANN_outputs (List.take n e.Output_Map) outputs = o1 at ho1 ⊢
    simp [CIOMap.GetOutputIndex, CIOMap.GetMLPOutputIndex, CNeuralNetwork.GetANNOutput, he,
      hnet, List.getElem?_eq_getElem h1, List.getElem?_eq_getElem hp.2, hp.1, ho1, writeAll]

theorem ieee_writeOutputs_eq (mem : Memory) (i_map i_ANN : Nat) (e : IOMapEntry)
    (net : CNeuralNetwork) (he : mem.input_output_map[i_map]? = some e)
    (hnet : mem.NeuralNetworks[i_ANN]? = some net)
    (hb : ∀ p ∈ e.Output_Map, p.1 < mem.outputs.length ∧ p.2 < net.ANN_outputs.length) :
    writeOutputs mem i_map i_ANN =
      some { mem with outputs := writeAll net.ANN_outputs e.Output_Map mem.outputs } := by
  have h := ieee_writeLoop_take mem.input_output_map mem.NeuralNetworks i_map i_ANN e net
    mem.outputs he hnet hb _ le_rfl
  rw [List.take_length] at h
  simp only [writeOutputs, CIOMap.GetNMappedOutputs, he, Option.map_some', Option.bind_eq_bind,
    Option.some_bind, Option.pure_def] at h ⊢
  rw [h, Option.some_bind]

theorem ieee_mapM_getElem? (inputs : List su2double) (l : List (Nat × Nat))
    (h : ∀ p ∈ l, p.1 < inputs.length) :
    l.mapM (fun p => inputs[p.1]?) = some (l.map fun p => inputs.getD p.1 su2double.nan) := by
  induction l with
  | nil => rfl
  | cons a l ih =>
    have ha : a.1 < inputs.length := h a (List.mem_cons_self _ _)
    have hl := ih fun p hp => h p (List.mem_cons_of_mem _ hp)
    rw [← List.mapM'_eq_mapM] at hl ⊢
    simp [List.mapM', hl, List.getElem?_eq_getElem ha]

theorem ieee_GetMLPInputs_eq (m : CIOMap) (i_map : Nat) (e : IOMapEntry)
    (inputs : List su2double) (he : m[i_map]? = some e)
    (h : ∀ p ∈ e.Input_Map, p.1 < inputs.length) :
    GetMLPInputs m i_map inputs = some (gatherInputs e inputs) := by
  simp only [GetMLPInputs, he, Option.some_bind, ieee_mapM_getElem? inputs e.Input_Map h,
    gatherInputs]

/-! ## The query path over the values of a double: one scan iteration -/

theorem ieee_related_refl (mem : Memory) : Related mem mem :=
  ⟨rfl, rfl, rfl, rfl, fun i a b ha hb => by
    rw [ha] at hb
    cases hb
    exact ⟨rfl, rfl, rfl, rfl⟩⟩

theorem ieee_related_trans (mem0 mem1 mem2 : Memory) (h1 : Related mem0 mem1)
    (h2 : Related mem1 mem2) : Related mem0 mem2 := by
  refine ⟨h2.map_eq.trans h1.map_eq, h2.inputs_eq.trans h1.inputs_eq,
    h2.outputs_len.trans h1.outputs_len, h2.nets_len.trans h1.nets_len, ?_⟩
  intro i a c ha hc
  have hi : i < mem1.NeuralNetworks.length := by
    rw [h1.nets_len]
    exact (List.getElem?_eq_some.mp ha).1
  obtain ⟨b1, b2, b3, b4⟩ := h1.nets_eq i a _ ha (List.getElem?_eq_getElem hi)
  obtain ⟨c1, c2, c3, c4⟩ := h2.nets_eq i _ c (List.getElem?_eq_getElem hi) hc
  exact ⟨c1.trans b1, c2.trans b2, c3.trans b3, c4.trans b4⟩

theorem ieee_related_net (mem0 mem1 : Memory) (h : Related mem0 mem1) (i : Nat)
    (a : CNeuralNetwork) (ha : mem0.NeuralNetworks[i]? = some a) :
    ∃ b, mem1.NeuralNetworks[i]? = some b ∧ b.input_names = a.input_names ∧
      b.output_names = a.output_names ∧ b.input_norm = a.input_norm ∧ b.forward = a.forward := by
  have hi : i < mem1.NeuralNetworks.length := by
    rw [h.nets_len]
    exact (List.getElem?_eq_some.mp ha).1
  exact ⟨_, List.getElem?_eq_getElem hi, h.nets_eq i a _ ha (List.getElem?_eq_getElem hi)⟩

theorem ieee_wellFormed_related (mem0 mem1 : Memory) (hwf : WellFormed mem0)
    (h : Related mem0 mem1) : WellFormed mem1 := by
  intro e he
  rw [h.map_eq] at he
  obtain ⟨a, hok⟩ := hwf e he
  obtain ⟨b, hb, _, _, b3, b4⟩ := ieee_related_net mem0 mem1 h _ a hok.net_eq
  refine ⟨b, hb, ?_, ?_, ?_, ?_⟩
  · rw [b3]
    exact hok.norm_len
  · rw [h.inputs_eq]
    exact hok.in_idx
  · rw [h.outputs_len]
    exact hok.out_idx
  · rw [b4]
    exact hok.out_loc

theorem ieee_evaluate_related (mem : Memory) (e : IOMapEntry) (i : Nat) (net : CNeuralNetwork)
    (xs : List su2double) (hnet : mem.NeuralNetworks[i]? = some net) :
    Related mem (evaluateEntry e i net xs mem) := by
  refine ⟨rfl, rfl, ieee_writeAll_length _ _ _, List.length_set _ _ _, ?_⟩
  intro j a b ha hb
  simp only [evaluateEntry] at hb
  by_cases hij : i = j
  · subst hij
    rw [List.getElem?_set_self (List.getElem?_eq_some.mp hnet).1] at hb
    rw [hnet] at ha
    cases ha
    cases hb
    exact ⟨rfl, rfl, rfl, rfl⟩
  · rw [List.getElem?_set_ne hij, ha] at hb
    cases hb
    exact ⟨rfl, rfl, rfl, rfl⟩

theorem ieee_updateNearest_mem (ops : su2ops) (i_map i_ANN : Nat) (d : su2double)
    (s : ScanState) :
    (updateNearest ops i_map i_ANN d s).mem = s.mem ∧
    (updateNearest ops i_map i_ANN d s).MLP_was_evaluated = s.MLP_was_evaluated := by
  unfold updateNearest
  split <;> simp

theorem ieee_scanStep_eq (ops : su2ops) (i_map : Nat) (s : ScanState) (e : IOMapEntry)
    (net : CNeuralNetwork) (he : s.mem.input_output_map[i_map]? = some e)
    (hnet : s.mem.NeuralNetworks[e.MLP_index]? = some net) :
    scanStep ops i_map s =
      updateNearest ops i_map e.MLP_index
        (distOf ops (limitPairs net.input_norm (gatherInputs e s.mem.inputs)))
        (if passesB (limitPairs net.input_norm (gatherInputs e s.mem.inputs)) then
          { s with mem := evaluateEntry e e.MLP_index net (gatherInputs e s.mem.inputs) s.mem,
                   MLP_was_evaluated := true }
        else s) := by
  simp only [scanStep, he, hnet]

theorem ieee_scanStep_mem (ops : su2ops) (i_map : Nat) (s : ScanState) (e : IOMapEntry)
    (net : CNeuralNetwork) (he : s.mem.input_output_map[i_map]? = some e)
    (hnet : s.mem.NeuralNetworks[e.MLP_index]? = some net) :
    (scanStep ops i_map s).mem =
      (if passesB (limitPairs net.input_norm (gatherInputs e s.mem.inputs)) then
        evaluateEntry e e.MLP_index net (gatherInputs e s.mem.inputs) s.mem
      else s.mem) ∧
    (scanStep ops i_map s).MLP_was_evaluated =
      (s.MLP_was_evaluated ||
        passesB (limitPairs net.input_norm (gatherInputs e s.mem.inputs))) := by
  rw [ieee_scanStep_eq ops i_map s e net he hnet, (ieee_updateNearest_mem _ _ _ _ _).1,
    (ieee_updateNearest_mem _ _ _ _ _).2]
  cases passesB (limitPairs net.input_norm (gatherInputs e s.mem.inputs)) <;> simp

theorem ieee_scanStep_related (ops : su2ops) (i_map : Nat) (s : ScanState) :
    Related s.mem (scanStep ops i_map s).mem := by
  cases he : s.mem.input_output_map[i_map]? with
  | none =>
    simp only [scanStep, he]
    exact ieee_related_refl _
  | some e =>
    cases hnet : s.mem.NeuralNetworks[e.MLP_index]? with
    | none =>
      simp only [scanStep, he, hnet]
      exact ieee_related_refl _
    | some net =>
      rw [(ieee_scanStep_mem ops i_map s e net he hnet).1]
      split
      · exact ieee_evaluate_related _ _ _ _ _ hnet
      · exact ieee_related_refl _

theorem ieee_scanBody_eq (ops : su2ops) (i_map : Nat) (s : ScanState)
    (hwf : WellFormed s.mem) (hk : i_map < s.mem.input_output_map.length) :
    scanBody ops i_map s = some (scanStep ops i_map s) := by
  have he : s.mem.input_output_map[i_map]? = some s.mem.input_output_map[i_map] :=
    List.getElem?_eq_getElem hk
  generalize s.mem.input_output_map[i_map] = e at he
  obtain ⟨net, hok⟩ := hwf e (List.getElem?_mem he)
  have hlen : (gatherInputs e s.mem.inputs).length ≤ net.input_norm.length := by
    simpa [gatherInputs] using hok.norm_len
  have hi : e.MLP_index < s.mem.NeuralNetworks.length := (List.getElem?_eq_some.mp hok.net_eq).1
  rw [ieee_scanStep_eq ops i_map s e net he hok.net_eq]
  have hw := ieee_writeOutputs_eq
    { s.mem with NeuralNetworks :=
        s.mem.NeuralNetworks.set e.MLP_index (net.Predict (gatherInputs e s.mem.inputs)) }
    i_map e.MLP_index e (net.Predict (gatherInputs e s.mem.inputs)) he
    (List.getElem?_set_self hi)
    (fun p hp => ⟨hok.out_idx p hp, hok.out_loc p hp _⟩)
  simp only [scanBody, CIOMap.GetMLPIndex, he, Option.map_some', Option.bind_eq_bind,
    Option.some_bind, ieee_GetMLPInputs_eq _ i_map e _ he hok.in_idx, hok.net_eq,
    ieee_rangeLoop_eq ops net _ hlen, Predict, Option.pure_def, hw, updateNearest,
    evaluateEntry]
  cases hr : passesB (limitPairs net.input_norm (gatherInputs e s.mem.inputs)) with
  | true =>
    simp only [if_true, Option.some_bind]
    split <;> rfl
  | false =>
    simp only [Bool.false_eq_true, if_false, Option.some_bind]
    split <;> rfl

theorem ieee_scanPure_related (ops : su2ops) (s0 : ScanState) (n : Nat) :
    Related s0.mem (scanPure ops s0 n).mem := by
  induction n with
  | zero => exact ieee_related_refl _
  | succ n ih => exact ieee_related_trans _ _ _ ih (ieee_scanStep_related ops n _)

theorem ieee_scanLoop_take (ops : su2ops) (mem : Memory) (hwf : WellFormed mem) (n : Nat)
    (hn : n ≤ mem.input_output_map.length) :
    forLoop n (scanBody ops) (scanInit mem) = some (scanPure ops (scanInit mem) n) := by
  induction n with
  | zero => rfl
  | succ n ih =>
    have hrel : Related mem (scanPure ops (scanInit mem) n).mem :=
      ieee_scanPure_related ops (scanInit mem) n
    rw [forLoop_succ, ih (by omega), Option.some_bind]
    exact ieee_scanBody_eq ops n _ (ieee_wellFormed_related _ _ hwf hrel)
      (by rw [hrel.map_eq]; exact hn)

theorem ieee_scanLoop_eq (ops : su2ops) (mem : Memory) (hwf : WellFormed mem) :
    scanLoop ops mem = some (scanPure ops (scanInit mem) mem.input_output_map.length) :=
  ieee_scanLoop_take ops mem hwf _ le_rfl

/-! ## The query path over the values of a double: the scan loop -/

theorem ieee_entryPasses_iff (mem : Memory) (k : Nat) (e : IOMapEntry) (net : CNeuralNetwork)
    (he : mem.input_output_map[k]? = some e) (hok : EntryOK mem e net) :
    EntryPasses mem k ↔
      passesB (limitPairs net.input_norm (gatherInputs e mem.inputs)) = true := by
  rw [ieee_passesB_iff]
  have hg := ieee_GetMLPInputs_eq mem.input_output_map k e mem.inputs he hok.in_idx
  constructor
  · rintro ⟨e1, net1, xs, ⟨h1, h2, h3⟩, h4⟩
    rw [he] at h1
    cases h1
    rw [hok.net_eq] at h2
    cases h2
    rw [hg] at h3
    cases h3
    exact h4
  · intro h
    exact ⟨e, net, _, ⟨he, hok.net_eq, hg⟩, h⟩

theorem ieee_step_data (mem0 : Memory) (s : ScanState) (hwf : WellFormed mem0)
    (hrel : Related mem0 s.mem) (n : Nat) (hn : n < mem0.input_output_map.length) :
    ∃ e a b, mem0.input_output_map[n]? = some e ∧ EntryOK mem0 e a ∧
      s.mem.input_output_map[n]? = some e ∧ s.mem.NeuralNetworks[e.MLP_index]? = some b ∧
      b.input_norm = a.input_norm ∧ b.forward = a.forward := by
  have he : mem0.input_output_map[n]? = some mem0.input_output_map[n] :=
    List.getElem?_eq_getElem hn
  generalize mem0.input_output_map[n] = e at he
  obtain ⟨a, hok⟩ := hwf e (List.getElem?_mem he)
  obtain ⟨b, hb, _, _, b3, b4⟩ := ieee_related_net mem0 s.mem hrel _ a hok.net_eq
  exact ⟨e, a, b, he, hok, by rw [hrel.map_eq]; exact he, hb, b3, b4⟩

theorem ieee_scanPure_evaluated (ops : su2ops) (mem : Memory) (hwf : WellFormed mem) (n : Nat)
    (hn : n ≤ mem.input_output_map.length) :
    (scanPure ops (scanInit mem) n).MLP_was_evaluated = true ↔
      ∃ k, k < n ∧ EntryPasses mem k := by
  induction n with
  | zero => simp [scanPure, scanInit]
  | succ n ih =>
    have hrel : Related mem (scanPure ops (scanInit mem) n).mem :=
      ieee_scanPure_related ops (scanInit mem) n
    obtain ⟨e, a, b, he, hok, hes, hb, b3, _⟩ :=
      ieee_step_data mem _ hwf hrel n (Nat.lt_of_succ_le hn)
    have hflag := (ieee_scanStep_mem ops n (scanPure ops (scanInit mem) n) e b hes hb).2
    rw [b3, hrel.inputs_eq] at hflag
    show (scanStep ops n (scanPure ops (scanInit mem) n)).MLP_was_evaluated = true ↔ _
    rw [hflag, Bool.or_eq_true, ih (by omega), ← ieee_entryPasses_iff mem n e a he hok]
    constructor
    · rintro (⟨k, hk, h⟩ | h)
      · exact ⟨k, by omega, h⟩
      · exact ⟨n, by omega, h⟩
    · rintro ⟨k, hk, h⟩
      rcases Nat.lt_succ_iff_lt_or_eq.mp hk with hlt | heq
      · exact Or.inl ⟨k, hlt, h⟩
      · exact Or.inr (heq ▸ h)

theorem ieee_scanLoop_evaluated (ops : su2ops) (mem : Memory) (hwf : WellFormed mem) :
    (scanPure ops (scanInit mem) mem.input_output_map.length).MLP_was_evaluated = true ↔
      ∃ k, EntryPasses mem k := by
  rw [ieee_scanPure_evaluated ops mem hwf _ le_rfl]
  constructor
  · rintro ⟨k, _, h⟩
    exact ⟨k, h⟩
  · rintro ⟨k, h⟩
    obtain ⟨e, _, _, ⟨he, _, _⟩, _⟩ := h
    exact ⟨k, (List.getElem?_eq_some.mp he).1, e, _, _, ⟨he, ‹_›, ‹_›⟩, ‹_›⟩

theorem ieee_scanStep_nearest (ops : su2ops) (i_map : Nat) (s : ScanState) (e : IOMapEntry)
    (net : CNeuralNetwork) (he : s.mem.input_output_map[i_map]? = some e)
    (hnet : s.mem.NeuralNetworks[e.MLP_index]? = some net) :
    ((ops.sqrt (distOf ops (limitPairs net.input_norm (gatherInputs e s.mem.inputs)))).lt
        s.distance_to_query = true →
      (scanStep ops i_map s).i_map_nearest = i_map ∧
      (scanStep ops i_map s).i_ANN_nearest = e.MLP_index) ∧
    ((ops.sqrt (distOf ops (limitPairs net.input_norm (gatherInputs e s.mem.inputs)))).lt
        s.distance_to_query = false →
      (scanStep ops i_map s).i_map_nearest = s.i_map_nearest ∧
      (scanStep ops i_map s).i_ANN_nearest = s.i_ANN_nearest ∧
      (scanStep ops i_map s).distance_to_query = s.distance_to_query) := by
  rw [ieee_scanStep_eq ops i_map s e net he hnet]
  unfold updateNearest
  constructor <;> intro h <;> split_ifs <;> simp_all

theorem ieee_scanPure_nearest (ops : su2ops) (mem : Memory) (hwf : WellFormed mem) (n : Nat)
    (hn : n ≤ mem.input_output_map.length) :
    ((scanPure ops (scanInit mem) n).i_map_nearest = 0 ∧
      (scanPure ops (scanInit mem) n).i_ANN_nearest = 0 ∧
      (scanPure ops (scanInit mem) n).distance_to_query = su2double.fin (10 ^ 20) ∧
      ∀ (k : Nat) (e : IOMapEntry) (a : CNeuralNetwork), k < n →
        mem.input_output_map[k]? = some e → EntryOK mem e a →
        (ops.sqrt (distOf ops (limitPairs a.input_norm (gatherInputs e mem.inputs)))).lt
          (su2double.fin (10 ^ 20)) = false) ∨
    ∃ (k : Nat) (e : IOMapEntry), k < n ∧ mem.input_output_map[k]? = some e ∧
      (scanPure ops (scanInit mem) n).i_map_nearest = k ∧
      (scanPure ops (scanInit mem) n).i_ANN_nearest = e.MLP_index := by
  induction n with
  | zero =>
    left
    exact ⟨rfl, rfl, rfl, fun k e a hk => absurd hk (Nat.not_lt_zero k)⟩
  | succ n ih =>
    have hrel : Related mem (scanPure ops (scanInit mem) n).mem :=
      ieee_scanPure_related ops (scanInit mem) n
    obtain ⟨e, a, b, he, hok, hes, hb, b3, _⟩ :=
      ieee_step_data mem _ hwf hrel n (Nat.lt_of_succ_le hn)
    have hstep := ieee_scanStep_nearest ops n (scanPure ops (scanInit mem) n) e b hes hb
    rw [b3, hrel.inputs_eq] at hstep
    have hsucc : scanPure ops (scanInit mem) (n + 1) =
        scanStep ops n (scanPure ops (scanInit mem) n) := rfl
    rw [hsucc]
    generalize scanPure ops (scanInit mem) n = s at ih hstep ⊢
    cases hq : (ops.sqrt (distOf ops (limitPairs a.input_norm (gatherInputs e mem.inputs)))).lt
        s.distance_to_query with
    | true =>
      obtain ⟨h1, h2⟩ := hstep.1 hq
      right
      exact ⟨n, e, Nat.lt_succ_self n, he, h1, h2⟩
    | false =>
      obtain ⟨h1, h2, h3⟩ := hstep.2 hq
      rcases ih (by omega) with ⟨u1, u2, u3, hall⟩ | ⟨k, e1, hk, g1, g3, g4⟩
      · left
        refine ⟨h1.trans u1, h2.trans u2, h3.trans u3, ?_⟩
        intro k e1 a1 hk hek hok1
        rcases Nat.lt_succ_iff_lt_or_eq.mp hk with hlt | heq
        · exact hall k e1 a1 hlt hek hok1
        · subst heq
          rw [he] at hek
          cases hek
          have ha : a1 = a := by
            have := hok1.net_eq
            rw [hok.net_eq] at this
            exact (Option.some.inj this).symm
          subst ha
          rw [← u3]
          exact hq
      · right
        exact ⟨k, e1, by omega, g1, h1.trans g3, h2.trans g4⟩

theorem ieee_fallback_entry (ops : su2ops) (mem : Memory) (hwf : WellFormed mem)
    (hnd : NearestDefined ops mem) :
    ∃ e a,
      mem.input_output_map[(scanPure ops (scanInit mem)
        mem.input_output_map.length).i_map_nearest]? = some e ∧
      (scanPure ops (scanInit mem) mem.input_output_map.length).i_ANN_nearest = e.MLP_index ∧
      EntryOK mem e a := by
  rcases ieee_scanPure_nearest ops mem hwf _ le_rfl with
    ⟨u1, u2, _, hall⟩ | ⟨k, e, hk, g1, g3, g4⟩
  · rcases hnd with ⟨e, he, h0⟩ | ⟨k, e, net, xs, r, ⟨he, hnet, hxs⟩, hr, hlt⟩
    · obtain ⟨a, hok⟩ := hwf e (List.getElem?_mem he)
      exact ⟨e, a, by rw [u1]; exact he, by rw [u2, h0], hok⟩
    · exfalso
      have hk : k < mem.input_output_map.length := (List.getElem?_eq_some.mp he).1
      obtain ⟨a, hok⟩ := hwf e (List.getElem?_mem he)
      have ha : a = net := by
        have := hok.net_eq
        rw [hnet] at this
        exact (Option.some.inj this).symm
      subst ha
      rw [ieee_GetMLPInputs_eq _ k e _ he hok.in_idx] at hxs
      cases hxs
      rw [ieee_rangeLoop_eq ops a _ (by simpa [gatherInputs] using hok.norm_len)] at hr
      cases hr
      rw [hall k e a hk he hok] at hlt
      exact Bool.false_ne_true hlt
  · obtain ⟨a, hok⟩ := hwf e (List.getElem?_mem g1)
    exact ⟨e, a, by rw [g3]; exact g1, g4, hok⟩

/-! ## The query path over the values of a double: results of `PredictANN` -/

theorem ieee_PredictANN_evaluated (ops : su2ops) (mem : Memory) (hwf : WellFormed mem)
    (hev : (scanPure ops (scanInit mem) mem.input_output_map.length).MLP_was_evaluated = true) :
    PredictANN ops mem =
      some ((scanPure ops (scanInit mem) mem.input_output_map.length).mem, 0) := by
  simp [PredictANN, ieee_scanLoop_eq ops mem hwf, hev]

theorem ieee_fallback_eq (s : ScanState) (e : IOMapEntry) (b : CNeuralNetwork)
    (he : s.mem.input_output_map[s.i_map_nearest]? = some e)
    (hb : s.mem.NeuralNetworks[s.i_ANN_nearest]? = some b)
    (hin : ∀ p ∈ e.Input_Map, p.1 < s.mem.inputs.length)
    (hout : ∀ p ∈ e.Output_Map, p.1 < s.mem.outputs.length ∧
      p.2 < (b.forward (gatherInputs e s.mem.inputs)).length) :
    (do
      let ANN_inputs ← GetMLPInputs s.mem.input_output_map s.i_map_nearest s.mem.inputs
      let mem1 ← Predict s.mem s.i_ANN_nearest ANN_inputs
      let mem2 ← writeOutputs mem1 s.i_map_nearest s.i_ANN_nearest
      pure (mem2, 1)) =
      some (evaluateEntry e s.i_ANN_nearest b (gatherInputs e s.mem.inputs) s.mem, 1) := by
  have hi : s.i_ANN_nearest < s.mem.NeuralNetworks.length := (List.getElem?_eq_some.mp hb).1
  have hw := ieee_writeOutputs_eq
    { s.mem with NeuralNetworks :=
        s.mem.NeuralNetworks.set s.i_ANN_nearest (b.Predict (gatherInputs e s.mem.inputs)) }
    s.i_map_nearest s.i_ANN_nearest e (b.Predict (gatherInputs e s.mem.inputs)) he
    (List.getElem?_set_self hi) hout
  simp only [ieee_GetMLPInputs_eq _ _ e _ he hin, Predict, hb, Option.bind_eq_bind,
    Option.some_bind, Option.pure_def, hw, evaluateEntry]
  rfl

theorem ieee_PredictANN_fallback (ops : su2ops) (mem : Memory) (hwf : WellFormed mem)
    (hev : (scanPure ops (scanInit mem) mem.input_output_map.length).MLP_was_evaluated = false)
    (e : IOMapEntry) (a : CNeuralNetwork)
    (he : mem.input_output_map[(scanPure ops (scanInit mem)
      mem.input_output_map.length).i_map_nearest]? = some e)
    (hi : (scanPure ops (scanInit mem) mem.input_output_map.length).i_ANN_nearest = e.MLP_index)
    (hok : EntryOK mem e a) :
    ∃ mem1, PredictANN ops mem = some (mem1, 1) := by
  have hrel : Related mem (scanPure ops (scanInit mem) mem.input_output_map.length).mem :=
    ieee_scanPure_related ops (scanInit mem) _
  unfold PredictANN
  rw [ieee_scanLoop_eq ops mem hwf]
  generalize scanPure ops (scanInit mem) mem.input_output_map.length = s at *
  obtain ⟨b, hb, _, _, _, b4⟩ := ieee_related_net mem s.mem hrel _ a hok.net_eq
  simp only [Option.bind_eq_bind, Option.some_bind, hev, Bool.not_false, if_true]
  exact ⟨_, ieee_fallback_eq s e b (by rw [hrel.map_eq]; exact he) (by rw [hi]; exact hb)
    (by rw [hrel.inputs_eq]; exact hok.in_idx)
    (fun p hp => ⟨by rw [hrel.outputs_len]; exact hok.out_idx p hp,
      by rw [b4]; exact hok.out_loc p hp _⟩)⟩

theorem ieee_PredictANN_returns (ops : su2ops) (mem : Memory) (hwf : WellFormed mem)
    (h : (∃ k, EntryPasses mem k) ∨ NearestDefined ops mem) :
    ∃ r, PredictANN ops mem = some r := by
  cases hev : (scanPure ops (scanInit mem) mem.input_output_map.length).MLP_was_evaluated with
  | true => exact ⟨_, ieee_PredictANN_evaluated ops mem hwf hev⟩
  | false =>
    rcases h with hin | hnd
    · rw [(ieee_scanLoop_evaluated ops mem hwf).mpr hin] at hev
      cases hev
    · obtain ⟨e, a, he, hi, hok⟩ := ieee_fallback_entry ops mem hwf hnd
      obtain ⟨mem1, h1⟩ := ieee_PredictANN_fallback ops mem hwf hev e a he hi hok
      exact ⟨_, h1⟩

theorem ieee_writeOutputs_frame (mem mem2 : Memory) (i_map i_ANN : Nat) (e : IOMapEntry)
    (he : mem.input_output_map[i_map]? = some e)
    (h : writeOutputs mem i_map i_ANN = some mem2) :
    mem2.NeuralNetworks = mem.NeuralNetworks ∧
    mem2.input_output_map = mem.input_output_map ∧ mem2.inputs = mem.inputs ∧
    mem2.outputs.length = mem.outputs.length ∧
    ∀ j, (∀ p ∈ e.Output_Map, p.1 ≠ j) → mem2.outputs[j]? = mem.outputs[j]? := by
  simp only [writeOutputs, CIOMap.GetNMappedOutputs, he, Option.map_some', Option.bind_eq_bind,
    Option.some_bind, Option.bind_eq_some, Option.pure_def, Option.some.injEq] at h
  obtain ⟨o, ho, hmem⟩ := h
  subst hmem
  refine ⟨rfl, rfl, rfl, ?_⟩
  refine forLoop_preserves
    (fun o => o.length = mem.outputs.length ∧
      ∀ j, (∀ p ∈ e.Output_Map, p.1 ≠ j) → o[j]? = mem.outputs[j]?)
    _ _ mem.outputs o ho ⟨rfl, fun _ _ => rfl⟩ ?_
  intro i x y _ hP hy
  simp only [CIOMap.GetOutputIndex, CIOMap.GetMLPOutputIndex, he, Option.some_bind,
    Option.bind_eq_some, Option.map_eq_some', Option.pure_def] at hy
  obtain ⟨kk, ⟨p, hp, hpk⟩, _, _, _, _, _, _, hite⟩ := hy
  by_cases hlt : kk < x.length
  · rw [if_pos hlt] at hite
    cases hite
    refine ⟨by rw [List.length_set]; exact hP.1, ?_⟩
    intro j hj
    have hne : kk ≠ j := hpk ▸ hj p (List.getElem?_mem hp)
    rw [List.getElem?_set_ne hne]
    exact hP.2 j hj
  · rw [if_neg hlt] at hite
    cases hite

theorem ieee_PredictANN_cases (ops : su2ops) (mem mem1 : Memory) (st : Nat)
    (hwf : WellFormed mem) (hr : PredictANN ops mem = some (mem1, st)) :
    ((scanPure ops (scanInit mem) mem.input_output_map.length).MLP_was_evaluated = true ∧
      mem1 = (scanPure ops (scanInit mem) mem.input_output_map.length).mem ∧ st = 0) ∨
    ((scanPure ops (scanInit mem) mem.input_output_map.length).MLP_was_evaluated = false ∧
      st = 1 ∧
      ∃ e b xs,
        (scanPure ops (scanInit mem) mem.input_output_map.length).mem.input_output_map[
          (scanPure ops (scanInit mem) mem.input_output_map.length).i_map_nearest]? = some e ∧
        (scanPure ops (scanInit mem) mem.input_output_map.length).mem.NeuralNetworks[
          (scanPure ops (scanInit mem) mem.input_output_map.length).i_ANN_nearest]? = some b ∧
        mem1.NeuralNetworks =
          (scanPure ops (scanInit mem) mem.input_output_map.length).mem.NeuralNetworks.set
            (scanPure ops (scanInit mem) mem.input_output_map.length).i_ANN_nearest
            (b.Predict xs) ∧
        mem1.input_output_map =
          (scanPure ops (scanInit mem) mem.input_output_map.length).mem.input_output_map ∧
        mem1.inputs = (scanPure ops (scanInit mem) mem.input_output_map.length).mem.inputs ∧
        mem1.outputs.length =
          (scanPure ops (scanInit mem) mem.input_output_map.length).mem.outputs.length ∧
        ∀ j, (∀ p ∈ e.Output_Map, p.1 ≠ j) → mem1.outputs[j]? =
          (scanPure ops (scanInit mem) mem.input_output_map.length).mem.outputs[j]?) := by
  unfold PredictANN at hr
  rw [ieee_scanLoop_eq ops mem hwf] at hr
  generalize scanPure ops (scanInit mem) mem.input_output_map.length = s at hr ⊢
  cases hev : s.MLP_was_evaluated with
  | true =>
    left
    simp only [hev, Option.bind_eq_bind, Option.some_bind, Bool.not_true, Bool.false_eq_true,
      if_false, Option.pure_def, Option.some.injEq, Prod.mk.injEq] at hr
    exact ⟨rfl, hr.1.symm, hr.2.symm⟩
  | false =>
    right
    simp only [hev, Option.bind_eq_bind, Option.some_bind, Bool.not_false, if_true,
      Option.pure_def, Option.bind_eq_some, Option.some.injEq, Prod.mk.injEq] at hr
    obtain ⟨xs, hxs, m1, hm1, m2, hm2, hmem, hst⟩ := hr
    simp only [GetMLPInputs, Option.bind_eq_some] at hxs
    obtain ⟨e, he, _⟩ := hxs
    simp only [Predict, Option.bind_eq_bind, Option.bind_eq_some, Option.pure_def,
      Option.some.injEq] at hm1
    obtain ⟨b, hb, hm1⟩ := hm1
    subst hmem
    have g1 : m1.NeuralNetworks = s.mem.NeuralNetworks.set s.i_ANN_nearest (b.Predict xs) := by
      rw [← hm1]
    have g2 : m1.input_output_map = s.mem.input_output_map := by rw [← hm1]
    have g3 : m1.inputs = s.mem.inputs := by rw [← hm1]
    have g4 : m1.outputs = s.mem.outputs := by rw [← hm1]
    obtain ⟨f1, f2, f3, f4, f5⟩ := ieee_writeOutputs_frame m1 m2 s.i_map_nearest
      s.i_ANN_nearest e (by rw [g2]; exact he) hm2
    exact ⟨rfl, hst.symm, e, b, xs, he, hb, f1.trans g1, f2.trans g2, f3.trans g3,
      by rw [f4, g4], fun j hj => by rw [f5 j hj, g4]⟩

theorem ieee_evaluate_other (mem : Memory) (e : IOMapEntry) (i : Nat) (net : CNeuralNetwork)
    (xs : List su2double) :
    (∀ i1, i ≠ i1 →
      (evaluateEntry e i net xs mem).NeuralNetworks[i1]? = mem.NeuralNetworks[i1]?) ∧
    (∀ j, (∀ q ∈ e.Output_Map, q.1 ≠ j) →
      (evaluateEntry e i net xs mem).outputs[j]? = mem.outputs[j]?) :=
  ⟨fun _ hne => List.getElem?_set_ne hne, fun j hj => ieee_writeAll_other _ _ _ j hj⟩

theorem ieee_scanPure_frame (ops : su2ops) (mem : Memory) (hwf : WellFormed mem) (n : Nat)
    (hn : n ≤ mem.input_output_map.length) :
    (∀ i, (∀ (k : Nat) (e : IOMapEntry), k < n → mem.input_output_map[k]? = some e →
        e.MLP_index = i → ¬ EntryPasses mem k) →
      (scanPure ops (scanInit mem) n).mem.NeuralNetworks[i]? = mem.NeuralNetworks[i]?) ∧
    (∀ j, (∀ (k : Nat) (e : IOMapEntry), k < n → mem.input_output_map[k]? = some e →
        EntryPasses mem k → ∀ q ∈ e.Output_Map, q.1 ≠ j) →
      (scanPure ops (scanInit mem) n).mem.outputs[j]? = mem.outputs[j]?) := by
  induction n with
  | zero => exact ⟨fun _ _ => rfl, fun _ _ => rfl⟩
  | succ n ih =>
    have hrel : Related mem (scanPure ops (scanInit mem) n).mem :=
      ieee_scanPure_related ops (scanInit mem) n
    obtain ⟨e, a, b, he, hok, hes, hb, b3, _⟩ :=
      ieee_step_data mem _ hwf hrel n (Nat.lt_of_succ_le hn)
    obtain ⟨ih1, ih2⟩ := ih (by omega)
    have hmem := (ieee_scanStep_mem ops n (scanPure ops (scanInit mem) n) e b hes hb).1
    rw [b3, hrel.inputs_eq] at hmem
    have hiff := ieee_entryPasses_iff mem n e a he hok
    have hsucc : scanPure ops (scanInit mem) (n + 1) =
        scanStep ops n (scanPure ops (scanInit mem) n) := rfl
    rw [hsucc, hmem]
    cases hr : passesB (limitPairs a.input_norm (gatherInputs e mem.inputs)) with
    | true =>
      rw [if_pos rfl]
      constructor
      · intro i hi
        have hne : e.MLP_index ≠ i := fun heq => hi n e (Nat.lt_succ_self n) he heq (hiff.mpr hr)
        rw [(ieee_evaluate_other _ _ _ _ _).1 i hne]
        exact ih1 i fun k e1 hk => hi k e1 (Nat.lt_succ_of_lt hk)
      · intro j hj
        rw [(ieee_evaluate_other _ _ _ _ _).2 j (hj n e (Nat.lt_succ_self n) he (hiff.mpr hr))]
        exact ih2 j fun k e1 hk => hj k e1 (Nat.lt_succ_of_lt hk)
    | false =>
      rw [if_neg Bool.false_ne_true]
      exact ⟨fun i hi => ih1 i fun k e1 hk => hi k e1 (Nat.lt_succ_of_lt hk),
        fun j hj => ih2 j fun k e1 hk => hj k e1 (Nat.lt_succ_of_lt hk)⟩

theorem ieee_nearest_ne (ops : su2ops) (mem : Memory) (hwf : WellFormed mem) (i : Nat)
    (hi : ∀ e ∈ mem.input_output_map, e.MLP_index ≠ i)
    (h : i ≠ 0 ∨ NearestDefined ops mem) :
    (scanPure ops (scanInit mem) mem.input_output_map.length).i_ANN_nearest ≠ i := by
  rcases h with h0 | hnd
  · rcases ieee_scanPure_nearest ops mem hwf _ le_rfl with
      ⟨_, u2, _, _⟩ | ⟨k, e, _, g1, _, g4⟩
    · rw [u2]
      exact fun h => h0 h.symm
    · rw [g4]
      exact hi e (List.getElem?_mem g1)
  · obtain ⟨e, _, he, hie, _⟩ := ieee_fallback_entry ops mem hwf hnd
    rw [hie]
    exact hi e (List.getElem?_mem he)

/-! ## Instances -/

theorem ieee_exactOps_lawful : exactOps.Lawful := by
  refine ⟨?_, ?_, ?_, ?_, ?_, ?_, ?_, ?_, ?_, ?_⟩
  · intro q
    simp [exactOps, exactAdd, exactNeg]
  · intro w h0 hn
    cases w with
    | fin b =>
      have hb : b ≠ 0 := fun h => h0 (by rw [h])
      simp [exactOps, exactDiv, hb]
    | pinf => rfl
    | ninf => rfl
    | nan => exact absurd rfl hn
  · intro a
    cases a with
    | fin q =>
      by_cases h0 : q = 0
      · simp [exactOps, exactDiv, h0]
      · by_cases hp : 0 < q
        · simp [exactOps, exactDiv, h0, hp]
        · simp [exactOps, exactDiv, h0, hp]
    | pinf => simp [exactOps, exactDiv]
    | ninf => simp [exactOps, exactDiv]
    | nan => simp [exactOps, exactDiv]
  · simp [exactOps, exactMul]
  · simp [exactOps, exactMul, exactSign]
  · simp [exactOps, exactMul, exactSign]
  · simp [exactOps, exactMul, exactSign]
  · simp [exactOps, exactAdd]
  · rfl
  · rfl

theorem ieee_memAB_okA (x t : su2double) :
    EntryOK (memAB x t) { MLP_index := 0, Input_Map := [(0, 0)], Output_Map := [(0, 0)] }
      netA :=
  ⟨rfl, by simp [netA], by simp [memAB], by simp [memAB], by simp [netA]⟩

theorem ieee_memAB_okB (x t : su2double) :
    EntryOK (memAB x t) { MLP_index := 1, Input_Map := [(1, 0)], Output_Map := [(1, 0)] }
      netB :=
  ⟨rfl, by simp [netB], by simp [memAB], by simp [memAB], by simp [netB]⟩

theorem ieee_memAB_wellFormed (x t : su2double) : WellFormed (memAB x t) := by
  intro e he
  simp only [memAB, mapAB, List.mem_cons, List.mem_singleton, List.not_mem_nil, or_false] at he
  rcases he with rfl | rfl
  · exact ⟨netA, ieee_memAB_okA x t⟩
  · exact ⟨netB, ieee_memAB_okB x t⟩

theorem ieee_memAB_passes (x t : su2double) (k : Nat) :
    EntryPasses (memAB x t) k ↔
      (k = 0 ∧ passesB [(x, su2double.fin 0, su2double.fin 1)] = true) ∨
      (k = 1 ∧ passesB [(t, su2double.fin 2, su2double.fin 3)] = true) := by
  match k with
  | 0 =>
    rw [ieee_entryPasses_iff (memAB x t) 0 _ netA rfl (ieee_memAB_okA x t)]
    constructor
    · intro h
      exact Or.inl ⟨rfl, h⟩
    · rintro (⟨_, h⟩ | ⟨h, _⟩)
      · exact h
      · cases h
  | 1 =>
    rw [ieee_entryPasses_iff (memAB x t) 1 _ netB rfl (ieee_memAB_okB x t)]
    constructor
    · intro h
      exact Or.inr ⟨rfl, h⟩
    · rintro (⟨h, _⟩ | ⟨_, h⟩)
      · cases h
      · exact h
  | k + 2 =>
    constructor
    · rintro ⟨e, _, _, ⟨he, _, _⟩, _⟩
      simp [memAB, mapAB] at he
    · rintro (⟨h, _⟩ | ⟨h, _⟩)
      · cases h
      · cases h

theorem ieee_memA_ok (x : su2double) :
    EntryOK (memA x) { MLP_index := 0, Input_Map := [(0, 0)], Output_Map := [(0, 0)] } netA :=
  ⟨rfl, by simp [netA], by simp [memA], by simp [memA], by simp [netA]⟩

theorem ieee_memA_wellFormed (x : su2double) : WellFormed (memA x) := by
  intro e he
  simp only [memA, List.mem_singleton] at he
  subst he
  exact ⟨netA, ieee_memA_ok x⟩

theorem ieee_entryData_unique (mem : Memory) (k : Nat) (e e1 : IOMapEntry)
    (net net1 : CNeuralNetwork) (xs xs1 : List su2double) (h : EntryData mem k e net xs)
    (h1 : EntryData mem k e1 net1 xs1) : e1 = e ∧ net1 = net ∧ xs1 = xs := by
  obtain ⟨a1, a2, a3⟩ := h
  obtain ⟨b1, b2, b3⟩ := h1
  rw [a1] at b1
  cases b1
  rw [a2] at b2
  cases b2
  rw [a3] at b3
  cases b3
  exact ⟨rfl, rfl, rfl⟩

/-! ## C3: the flag of the range test -/

/-- C3, as the code has it: when every gathered input has a stored range, the loop of lines
102-114 ends, and the flag `within_range` it computes is true if and only if no gathered
input is below `min_i` or above `max_i` (the two comparisons of line 106). Inputs that all
satisfy `min_i <= x_i <= max_i` give the flag true; when no gathered input and no limit is a
NaN the flag is true if and only if every input satisfies `min_i <= x_i <= max_i`. One
iteration whose input equals `min_i` or `max_i` of a range with `min_i <= max_i` leaves the
flag as it was (inclusive boundaries), and so does an iteration whose input is a NaN. -/
theorem range_flag_iff_no_comparison_fails (ops : su2ops) (net : CNeuralNetwork)
    (xs : List su2double) (hlen : xs.length ≤ net.input_norm.length) :
    (∃ r, rangeLoop ops net xs = some r ∧
      (r.1 = true ↔ PassesTest net.input_norm xs) ∧
      (InsideRange net.input_norm xs → r.1 = true) ∧
      (NoNaN net.input_norm xs → (r.1 = true ↔ InsideRange net.input_norm xs))) ∧
    (∀ (i : Nat) (x : su2double) (lim : su2double × su2double) (acc : Bool × su2double),
      xs[i]? = some x → net.input_norm[i]? = some lim → lim.1.le lim.2 = true →
      (x = lim.1 ∨ x = lim.2) → ∃ d, rangeBody ops net xs i acc = some (acc.1, d)) ∧
    (∀ (i : Nat) (lim : su2double × su2double) (acc : Bool × su2double),
      xs[i]? = some su2double.nan → net.input_norm[i]? = some lim →
      ∃ d, rangeBody ops net xs i acc = some (acc.1, d)) := by
  refine ⟨⟨_, ieee_rangeLoop_eq ops net xs hlen, ieee_passesB_iff _ _, ?_, ?_⟩, ?_, ?_⟩
  · intro h
    exact (ieee_passesB_iff _ _).mpr (ieee_inside_passes _ _ h)
  · intro hn
    rw [ieee_passesB_iff]
    exact ⟨ieee_passes_inside _ _ hn, ieee_inside_passes _ _⟩
  · intro i x lim acc hx hlim hle hor
    have h1 : x.lt lim.1 = false := by
      rcases hor with h | h
      · rw [h]
        cases lim.1 <;> simp [su2double.lt]
      · rw [h]
        exact ieee_le_lt _ _ hle
    have h2 : lim.2.lt x = false := by
      rcases hor with h | h
      · rw [h]
        exact ieee_le_lt _ _ hle
      · rw [h]
        cases lim.2 <;> simp [su2double.lt]
    simp [rangeBody, CNeuralNetwork.GetInputNorm, hx, hlim, h1, h2]
  · intro i lim acc hx hlim
    have h1 : su2double.nan.lt lim.1 = false := by cases lim.1 <;> rfl
    have h2 : lim.2.lt su2double.nan = false := by cases lim.2 <;> rfl
    simp [rangeBody, CNeuralNetwork.GetInputNorm, hx, hlim, h1, h2]

/-- Instance of C3: the input `1` for the range `[0, 1]` of `netA` lies on the boundary and
the flag is true. -/
theorem range_flag_iff_no_comparison_fails_witness :
    ∃ r, rangeLoop exactOps netA [su2double.fin 1] = some r ∧ r.1 = true := by
  obtain ⟨⟨r, hr, _, hin, _⟩, _, _⟩ :=
    range_flag_iff_no_comparison_fails exactOps netA [su2double.fin 1] (by simp [netA])
  refine ⟨r, hr, hin ?_⟩
  intro i x lim hx hlim
  cases i with
  | zero =>
    simp only [netA, List.getElem?_cons_zero, Option.some.injEq] at hx hlim
    subst hx hlim
    simp [su2double.le]
  | succ i => simp at hx

/-- C3 refuted as stated: for the range `[0, 1]` of `netA` the gathered input NaN does not
satisfy `min <= x <= max`, yet the loop flags the network within range, whatever the
arithmetic. -/
theorem range_flag_nan_input :
    ¬ InsideRange netA.input_norm [su2double.nan] ∧
    ∀ ops : su2ops, ∃ d, rangeLoop ops netA [su2double.nan] = some (true, d) := by
  constructor
  · intro h
    have h0 := h 0 su2double.nan (su2double.fin 0, su2double.fin 1) rfl rfl
    simp [su2double.le] at h0
  · intro ops
    refine ⟨distOf ops (limitPairs netA.input_norm [su2double.nan]), ?_⟩
    rw [ieee_rangeLoop_eq ops netA [su2double.nan] (by simp [netA])]
    rfl

/-! ## C1: the returned status -/

/-- C1, as the code has it, for a map that fits the networks, the query vector and the
output slots: whenever `PredictANN` returns, it returns `0` (in range) if and only if at
least one participating network passes the test of line 106 (no gathered input below
`min_i` or above `max_i`), and `1` (extrapolated) if and only if none does; it does return
`0` when some network passes, and it returns `1` when none passes and the nearest-network
variables are usable by the fallback. A network whose gathered inputs all satisfy
`min_i <= x_i <= max_i` passes the test, and for a network without NaN among its gathered
inputs and its limits, passing the test is the same as having all gathered inputs inside the
ranges. -/
theorem PredictANN_status_iff_passes (ops : su2ops) (mem : Memory) (hwf : WellFormed mem) :
    (∀ (mem1 : Memory) (st : Nat), PredictANN ops mem = some (mem1, st) →
      (st = 0 ↔ ∃ k, EntryPasses mem k) ∧ (st = 1 ↔ ¬ ∃ k, EntryPasses mem k)) ∧
    ((∃ k, EntryPasses mem k) → ∃ mem1, PredictANN ops mem = some (mem1, 0)) ∧
    ((¬ ∃ k, EntryPasses mem k) → NearestDefined ops mem →
      ∃ mem1, PredictANN ops mem = some (mem1, 1)) ∧
    (∀ k, EntryInside mem k → EntryPasses mem k) ∧
    (∀ (k : Nat) (e : IOMapEntry) (net : CNeuralNetwork) (xs : List su2double),
      EntryData mem k e net xs → NoNaN net.input_norm xs →
      (EntryPasses mem k ↔ EntryInside mem k)) := by
  have hinside : ∀ k, EntryInside mem k → EntryPasses mem k := by
    rintro k ⟨e, net, xs, hd, hin⟩
    exact ⟨e, net, xs, hd, ieee_inside_passes _ _ hin⟩
  refine ⟨?_, ?_, ?_, hinside, ?_⟩
  · intro mem1 st hr
    rw [← ieee_scanLoop_evaluated ops mem hwf]
    rcases ieee_PredictANN_cases ops mem mem1 st hwf hr with ⟨hev, _, hst⟩ | ⟨hev, hst, _⟩
    · rw [hev, hst]
      simp
    · rw [hev, hst]
      simp
  · intro h
    exact ⟨_, ieee_PredictANN_evaluated ops mem hwf ((ieee_scanLoop_evaluated ops mem hwf).mpr h)⟩
  · intro h hnd
    have hev : (scanPure ops (scanInit mem) mem.input_output_map.length).MLP_was_evaluated =
        false := by
      cases hc : (scanPure ops (scanInit mem) mem.input_output_map.length).MLP_was_evaluated
      · rfl
      · exact absurd ((ieee_scanLoop_evaluated ops mem hwf).mp hc) h
    obtain ⟨e, a, he, hi, hok⟩ := ieee_fallback_entry ops mem hwf hnd
    exact ieee_PredictANN_fallback ops mem hwf hev e a he hi hok
  · intro k e net xs hd hn
    constructor
    · rintro ⟨e1, net1, xs1, hd1, hp⟩
      obtain ⟨rfl, rfl, rfl⟩ := ieee_entryData_unique mem k e e1 net net1 xs xs1 hd hd1
      exact ⟨e1, net1, xs1, hd1, ieee_passes_inside _ _ hn hp⟩
    · exact hinside k

/-- Instance of C1: for the networks of ranges `[0, 1]` and `[2, 3]` and the query
`(10, 10)` no network passes the test and the call returns `1`. -/
theorem PredictANN_status_iff_passes_witness :
    WellFormed (memAB (su2double.fin 10) (su2double.fin 10)) ∧
    ∃ mem1, PredictANN exactOps (memAB (su2double.fin 10) (su2double.fin 10)) =
      some (mem1, 1) := by
  refine ⟨ieee_memAB_wellFormed _ _, ?_⟩
  refine (PredictANN_status_iff_passes exactOps (memAB (su2double.fin 10) (su2double.fin 10))
    (ieee_memAB_wellFormed _ _)).2.2.1 ?_ (Or.inl ⟨_, rfl, rfl⟩)
  rintro ⟨k, hk⟩
  rw [ieee_memAB_passes] at hk
  rcases hk with ⟨_, h⟩ | ⟨_, h⟩
  · revert h
    decide!
  · revert h
    decide!

/-- C1 refuted as stated, in two ways. With a map without entries no network has its
inputs inside its ranges, and the call does not return `1`: the fallback reads entry 0 of the
map, which does not exist. With the network of range `[0, 1]` and the query NaN no network
has its inputs inside its ranges, yet the call returns `0`, whatever the arithmetic. -/
theorem PredictANN_status_not_inside :
    (WellFormed memEmpty ∧ (¬ ∃ k, EntryInside memEmpty k) ∧
      ∀ ops : su2ops, PredictANN ops memEmpty = none) ∧
    (WellFormed (memA su2double.nan) ∧ (¬ ∃ k, EntryInside (memA su2double.nan) k) ∧
      ∀ ops : su2ops, ∃ mem1, PredictANN ops (memA su2double.nan) = some (mem1, 0)) := by
  refine ⟨⟨?_, ?_, ?_⟩, ieee_memA_wellFormed _, ?_, ?_⟩
  · intro e he
    simp [memEmpty] at he
  · rintro ⟨k, e, _, _, ⟨he, _, _⟩, _⟩
    simp [memEmpty] at he
  · intro ops
    rfl
  · rintro ⟨k, e, net, xs, hd, hin⟩
    have hk : k = 0 := by
      have := (List.getElem?_eq_some.mp hd.1).1
      simp [memA] at this
      exact this
    subst hk
    have hd0 : EntryData (memA su2double.nan) 0
        { MLP_index := 0, Input_Map := [(0, 0)], Output_Map := [(0, 0)] } netA
        [su2double.nan] := ⟨rfl, rfl, rfl⟩
    obtain ⟨rfl, rfl, rfl⟩ := ieee_entryData_unique _ 0 _ e _ net _ xs hd0 hd
    have h0 := hin 0 su2double.nan (su2double.fin 0, su2double.fin 1) rfl rfl
    simp [su2double.le] at h0
  · intro ops
    have hp : ∃ k, EntryPasses (memA su2double.nan) k := by
      refine ⟨0, ?_⟩
      rw [ieee_entryPasses_iff (memA su2double.nan) 0 _ netA rfl (ieee_memA_ok _)]
      rfl
    exact ⟨_, ieee_PredictANN_evaluated ops _ (ieee_memA_wellFormed _)
      ((ieee_scanLoop_evaluated ops _ (ieee_memA_wellFormed _)).mpr hp)⟩

/-! ## C4: a query at the midpoint of every range -/

theorem ieee_distOf_zero (ops : su2ops) (hl : ops.Lawful)
    (l : List (su2double × su2double × su2double))
    (h : ∀ q ∈ l, (∃ c, q.1 = su2double.fin c) ∧
      ops.mul (su2double.fin (1 / 2)) (ops.add q.2.2 q.2.1) = q.1 ∧
      ops.sub q.2.2 q.2.1 ≠ su2double.fin 0 ∧ ops.sub q.2.2 q.2.1 ≠ su2double.nan) :
    distOf ops l = su2double.fin 0 := by
  unfold distOf
  induction l with
  | nil => rfl
  | cons q l ih =>
    obtain ⟨⟨c, hc⟩, hm, h0, hn⟩ := h q (List.mem_cons_self _ _)
    rw [List.foldl_cons, hm, hc, hl.sub_self, hl.zero_div _ h0 hn, hl.pow2_zero, hl.add_zero]
    exact ih fun q1 hq1 => h q1 (List.mem_cons_of_mem _ hq1)

theorem ieee_entryData_ok (mem : Memory) (hwf : WellFormed mem) (k : Nat) (e : IOMapEntry)
    (net : CNeuralNetwork) (xs : List su2double) (hd : EntryData mem k e net xs) :
    EntryOK mem e net ∧ xs = gatherInputs e mem.inputs ∧
      xs.length ≤ net.input_norm.length := by
  obtain ⟨he, hnet, hxs⟩ := hd
  obtain ⟨a, hok⟩ := hwf e (List.getElem?_mem he)
  have ha : a = net := by
    have := hok.net_eq
    rw [hnet] at this
    exact (Option.some.inj this).symm
  subst ha
  rw [ieee_GetMLPInputs_eq _ k e _ he hok.in_idx] at hxs
  cases hxs
  exact ⟨hok, rfl, by simpa [gatherInputs] using hok.norm_len⟩

/-- C4, as the code has it, for a map that fits the networks, the query vector and the
output slots: when every range of the network of entry `k` is `[a, b]` with finite
`a <= b` and every gathered input equals `(a + b) / 2`, the range loop flags the network
within range, the scan iteration of the entry (from any state reached by the scan)
evaluates the network, caching its prediction, and the call returns `0`. The computed
distance is `0` when, in an arithmetic with the IEEE 754 behaviour of zero, for every input
the middle computed by line 111 equals the input and the width computed by line 113 is
neither zero nor a NaN. -/
theorem midpoint_query_in_range (ops : su2ops) (mem : Memory) (hwf : WellFormed mem)
    (k : Nat) (e : IOMapEntry) (net : CNeuralNetwork) (xs : List su2double)
    (hd : EntryData mem k e net xs)
    (hmid : ∀ (i : Nat) (x : su2double) (lim : su2double × su2double), xs[i]? = some x →
      net.input_norm[i]? = some lim →
      ∃ a b : ℚ, lim = (su2double.fin a, su2double.fin b) ∧ a ≤ b ∧
        x = su2double.fin ((a + b) / 2)) :
    (∃ d, rangeLoop ops net xs = some (true, d) ∧
      (ops.Lawful →
        (∀ (i : Nat) (x : su2double) (lim : su2double × su2double), xs[i]? = some x →
          net.input_norm[i]? = some lim →
          ops.mul (su2double.fin (1 / 2)) (ops.add lim.2 lim.1) = x ∧
          ops.sub lim.2 lim.1 ≠ su2double.fin 0 ∧ ops.sub lim.2 lim.1 ≠ su2double.nan) →
        d = su2double.fin 0)) ∧
    (∀ s : ScanState, Related mem s.mem →
      ∃ s1, scanBody ops k s = some s1 ∧ s1.MLP_was_evaluated = true ∧
        ∃ b, s1.mem.NeuralNetworks[e.MLP_index]? = some b ∧
          b.ANN_outputs = net.forward xs) ∧
    ∃ mem1, PredictANN ops mem = some (mem1, 0) := by
  obtain ⟨hok, hxs, hlen⟩ := ieee_entryData_ok mem hwf k e net xs hd
  have hpass : PassesTest net.input_norm xs := by
    intro i x lim hx hlim
    obtain ⟨a, b, rfl, hab, rfl⟩ := hmid i x lim hx hlim
    constructor
    · simp only [su2double.lt, decide_eq_false_iff_not, not_lt]
      linarith
    · simp only [su2double.lt, decide_eq_false_iff_not, not_lt]
      linarith
  have hB : passesB (limitPairs net.input_norm xs) = true := (ieee_passesB_iff _ _).mpr hpass
  refine ⟨⟨distOf ops (limitPairs net.input_norm xs), ?_, ?_⟩, ?_, ?_⟩
  · rw [ieee_rangeLoop_eq ops net xs hlen, hB]
  · intro hl hc
    apply ieee_distOf_zero ops hl
    intro q hq
    obtain ⟨i, hi⟩ := List.mem_iff_getElem?.mp hq
    simp only [limitPairs] at hi
    rw [List.getElem?_zip_eq_some] at hi
    obtain ⟨a, b, _, _, hx⟩ := hmid i q.1 q.2 hi.1 hi.2
    exact ⟨⟨_, hx⟩, hc i q.1 q.2 hi.1 hi.2⟩
  · intro s hrel
    have hk : k < s.mem.input_output_map.length := by
      rw [hrel.map_eq]
      exact (List.getElem?_eq_some.mp hd.1).1
    obtain ⟨b, hb, _, _, b3, b4⟩ := ieee_related_net mem s.mem hrel _ net hok.net_eq
    have hes : s.mem.input_output_map[k]? = some e := by
      rw [hrel.map_eq]
      exact hd.1
    have hmem := (ieee_scanStep_mem ops k s e b hes hb)
    rw [b3, hrel.inputs_eq, ← hxs, hB] at hmem
    refine ⟨scanStep ops k s,
      ieee_scanBody_eq ops k s (ieee_wellFormed_related _ _ hwf hrel) hk, ?_, ?_⟩
    · rw [hmem.2]
      simp
    · rw [hmem.1, if_pos rfl]
      refine ⟨b.Predict xs, ?_, ?_⟩
      · simp only [evaluateEntry]
        exact List.getElem?_set_self (List.getElem?_eq_some.mp hb).1
      · simp only [CNeuralNetwork.Predict]
        rw [b4]
  · have hp : ∃ k, EntryPasses mem k := ⟨k, e, net, xs, hd, hpass⟩
    exact ⟨_, ieee_PredictANN_evaluated ops mem hwf
      ((ieee_scanLoop_evaluated ops mem hwf).mpr hp)⟩

/-- Instance of C4: the query `1/2` for the network of range `[0, 1]`, in the arithmetic
without rounding: the flag is true, the distance is `0` and the call returns `0`. -/
theorem midpoint_query_in_range_witness :
    rangeLoop exactOps netA [su2double.fin (1 / 2)] = some (true, su2double.fin 0) ∧
    ∃ mem1, PredictANN exactOps (memAB (su2double.fin (1 / 2)) (su2double.fin 10)) =
      some (mem1, 0) := by
  obtain ⟨⟨d, hd, hz⟩, _, h3⟩ := midpoint_query_in_range exactOps
    (memAB (su2double.fin (1 / 2)) (su2double.fin 10)) (ieee_memAB_wellFormed _ _) 0
    { MLP_index := 0, Input_Map := [(0, 0)], Output_Map := [(0, 0)] } netA
    [su2double.fin (1 / 2)] ⟨rfl, rfl, rfl⟩
    (by
      intro i x lim hx hlim
      cases i with
      | zero =>
        simp only [netA, List.getElem?_cons_zero, Option.some.injEq] at hx hlim
        subst hx hlim
        exact ⟨0, 1, rfl, by norm_num, by norm_num⟩
      | succ i => simp at hx)
  have h0 : d = su2double.fin 0 := by
    apply hz ieee_exactOps_lawful
    intro i x lim hx hlim
    cases i with
    | zero =>
      simp only [netA, List.getElem?_cons_zero, Option.some.injEq] at hx hlim
      subst hx hlim
      refine ⟨?_, ?_, ?_⟩
      · simp [exactOps, exactMul, exactAdd]
      · simp [exactOps, exactAdd, exactNeg]
      · simp [exactOps, exactAdd, exactNeg]
    | succ i => simp at hx
  rw [h0] at hd
  exact ⟨hd, h3⟩

/-- C4 refuted as stated: the range `[1, 1]` of `netD` is valid (`min <= max`) and the input
`1` is its midpoint; the network is flagged within range, but in every arithmetic with the
IEEE 754 behaviour of zero (the arithmetic without rounding is one) the computed distance is
not `0`: line 113 divides by the width `0`. -/
theorem midpoint_zero_width_distance :
    netD.input_norm = [(su2double.fin 1, su2double.fin 1)] ∧
    (su2double.fin 1).le (su2double.fin 1) = true ∧
    su2double.fin 1 = su2double.fin ((1 + 1) / 2) ∧
    exactOps.Lawful ∧
    ∀ ops : su2ops, ops.Lawful →
      ∃ d, rangeLoop ops netD [su2double.fin 1] = some (true, d) ∧ d ≠ su2double.fin 0 := by
  refine ⟨rfl, by simp [su2double.le], by norm_num, ieee_exactOps_lawful, ?_⟩
  intro ops hl
  refine ⟨distOf ops (limitPairs netD.input_norm [su2double.fin 1]), ?_, ?_⟩
  · rw [ieee_rangeLoop_eq ops netD [su2double.fin 1] (by simp [netD])]
    congr 2
  · have hd : distOf ops (limitPairs netD.input_norm [su2double.fin 1]) =
        ops.add (su2double.fin 0) (ops.pow2 (ops.div
          (ops.sub (su2double.fin 1)
            (ops.mul (su2double.fin (1 / 2)) (ops.add (su2double.fin 1) (su2double.fin 1))))
          (ops.sub (su2double.fin 1) (su2double.fin 1)))) := rfl
    rw [hd, hl.sub_self]
    rcases hl.div_zero (ops.sub (su2double.fin 1)
      (ops.mul (su2double.fin (1 / 2)) (ops.add (su2double.fin 1) (su2double.fin 1))))
      with h | h | h
    · rw [h, hl.pow2_pinf, hl.add_pinf]
      exact fun hc => by cases hc
    · rw [h, hl.pow2_ninf, hl.add_pinf]
      exact fun hc => by cases hc
    · rw [h, hl.pow2_nan, hl.add_nan]
      exact fun hc => by cases hc

/-! ## The scan of the two sample networks -/

theorem ieee_memAB_scan (ops : su2ops) (x t : su2double) :
    (scanPure ops (scanInit (memAB x t)) 2).mem =
      (if passesB [(t, su2double.fin 2, su2double.fin 3)] then
        evaluateEntry { MLP_index := 1, Input_Map := [(1, 0)], Output_Map := [(1, 0)] } 1 netB
          [t]
          (if passesB [(x, su2double.fin 0, su2double.fin 1)] then
            evaluateEntry { MLP_index := 0, Input_Map := [(0, 0)], Output_Map := [(0, 0)] } 0
              netA [x] (memAB x t)
          else memAB x t)
      else
        (if passesB [(x, su2double.fin 0, su2double.fin 1)] then
          evaluateEntry { MLP_index := 0, Input_Map := [(0, 0)], Output_Map := [(0, 0)] } 0
            netA [x] (memAB x t)
        else memAB x t)) := by
  have h0 : (scanStep ops 0 (scanInit (memAB x t))).mem =
      (if passesB [(x, su2double.fin 0, su2double.fin 1)] then
        evaluateEntry { MLP_index := 0, Input_Map := [(0, 0)], Output_Map := [(0, 0)] } 0
          netA [x] (memAB x t)
      else memAB x t) :=
    (ieee_scanStep_mem ops 0 (scanInit (memAB x t))
      { MLP_index := 0, Input_Map := [(0, 0)], Output_Map := [(0, 0)] } netA rfl rfl).1
  have hes : (scanStep ops 0 (scanInit (memAB x t))).mem.input_output_map[1]? =
      some { MLP_index := 1, Input_Map := [(1, 0)], Output_Map := [(1, 0)] } := by
    rw [h0]
    split <;> rfl
  have hb : (scanStep ops 0 (scanInit (memAB x t))).mem.NeuralNetworks[1]? = some netB := by
    rw [h0]
    split <;> rfl
  have hin : (scanStep ops 0 (scanInit (memAB x t))).mem.inputs = [x, t] := by
    rw [h0]
    split <;> rfl
  have h1 := (ieee_scanStep_mem ops 1 (scanStep ops 0 (scanInit (memAB x t)))
    { MLP_index := 1, Input_Map := [(1, 0)], Output_Map := [(1, 0)] } netB hes hb).1
  rw [hin, h0] at h1
  exact h1

theorem ieee_memAB_returns (ops : su2ops) (x t : su2double)
    (hx : passesB [(x, su2double.fin 0, su2double.fin 1)] = true) :
    PredictANN ops (memAB x t) = some ((scanPure ops (scanInit (memAB x t)) 2).mem, 0) :=
  ieee_PredictANN_evaluated ops (memAB x t) (ieee_memAB_wellFormed x t)
    ((ieee_scanLoop_evaluated ops (memAB x t) (ieee_memAB_wellFormed x t)).mpr
      ⟨0, (ieee_memAB_passes x t 0).mpr (Or.inl ⟨rfl, hx⟩)⟩)

/-! ## C11: what a call leaves unchanged -/

/-- C11, as the code has it, for a map that fits the networks, the query vector and the
output slots: whenever `PredictANN` returns, the map and the query vector are unchanged, the
collection holds the same number of networks, every network has the names, the ranges and
the weights it had, the number of output slots is unchanged, an output slot that no entry of
the map maps keeps its value, a network that no entry of the map refers to is unchanged,
cached outputs included (for network 0 provided the nearest-network variables are usable by
the fallback), and when the call returns `0` a network none of whose entries passes the range
test is unchanged, cached outputs included. The call returns when some network passes the
range test or the nearest-network variables are usable by the fallback. -/
theorem PredictANN_unchanged_parts (ops : su2ops) (mem : Memory) (hwf : WellFormed mem) :
    (∀ (mem1 : Memory) (st : Nat), PredictANN ops mem = some (mem1, st) →
      mem1.input_output_map = mem.input_output_map ∧
      mem1.inputs = mem.inputs ∧
      mem1.NeuralNetworks.length = mem.NeuralNetworks.length ∧
      (∀ (i : Nat) (a b : CNeuralNetwork), mem.NeuralNetworks[i]? = some a →
        mem1.NeuralNetworks[i]? = some b →
        b.input_names = a.input_names ∧ b.output_names = a.output_names ∧
          b.input_norm = a.input_norm ∧ b.forward = a.forward) ∧
      mem1.outputs.length = mem.outputs.length ∧
      (∀ j, (∀ e ∈ mem.input_output_map, ∀ p ∈ e.Output_Map, p.1 ≠ j) →
        mem1.outputs[j]? = mem.outputs[j]?) ∧
      (∀ i, (∀ e ∈ mem.input_output_map, e.MLP_index ≠ i) →
        (i ≠ 0 ∨ NearestDefined ops mem) →
        mem1.NeuralNetworks[i]? = mem.NeuralNetworks[i]?) ∧
      (st = 0 → ∀ i, (∀ (k : Nat) (e : IOMapEntry), mem.input_output_map[k]? = some e →
          e.MLP_index = i → ¬ EntryPasses mem k) →
        mem1.NeuralNetworks[i]? = mem.NeuralNetworks[i]?)) ∧
    ((∃ k, EntryPasses mem k) ∨ NearestDefined ops mem → ∃ r, PredictANN ops mem = some r) := by
  refine ⟨?_, ieee_PredictANN_returns ops mem hwf⟩
  intro mem1 st hr
  have hrel : Related mem (scanPure ops (scanInit mem) mem.input_output_map.length).mem :=
    ieee_scanPure_related ops (scanInit mem) _
  obtain ⟨fr1, fr2⟩ := ieee_scanPure_frame ops mem hwf _ le_rfl
  have hnear := ieee_nearest_ne ops mem hwf
  rcases ieee_PredictANN_cases ops mem mem1 st hwf hr with
    ⟨_, hm, hst⟩ | ⟨_, hst, e, b, xs, he, hb, g1, g2, g3, g4, g5⟩
  · subst hm
    refine ⟨hrel.map_eq, hrel.inputs_eq, hrel.nets_len, hrel.nets_eq, hrel.outputs_len,
      ?_, ?_, ?_⟩
    · intro j hj
      exact fr2 j fun k e1 _ he1 _ q hq => hj e1 (List.getElem?_mem he1) q hq
    · intro i hi _
      exact fr1 i fun k e1 _ he1 hidx _ => hi e1 (List.getElem?_mem he1) hidx
    · intro _ i hi
      exact fr1 i fun k e1 _ he1 hidx => hi k e1 he1 hidx
  · generalize scanPure ops (scanInit mem) mem.input_output_map.length = s at *
    have hlt : s.i_ANN_nearest < s.mem.NeuralNetworks.length := (List.getElem?_eq_some.mp hb).1
    refine ⟨g2.trans hrel.map_eq, g3.trans hrel.inputs_eq, ?_, ?_, g4.trans hrel.outputs_len,
      ?_, ?_, ?_⟩
    · rw [g1, List.length_set]
      exact hrel.nets_len
    · intro i a b1 ha hb1
      rw [g1] at hb1
      by_cases hi : s.i_ANN_nearest = i
      · subst hi
        rw [List.getElem?_set_self hlt] at hb1
        cases hb1
        exact hrel.nets_eq _ a b ha hb
      · rw [List.getElem?_set_ne hi] at hb1
        exact hrel.nets_eq _ a b1 ha hb1
    · intro j hj
      rw [g5 j (hj e (by rw [← hrel.map_eq]; exact List.getElem?_mem he))]
      exact fr2 j fun k e1 _ he1 _ q hq => hj e1 (List.getElem?_mem he1) q hq
    · intro i hi hor
      rw [g1, List.getElem?_set_ne (hnear i hi hor)]
      exact fr1 i fun k e1 _ he1 hidx _ => hi e1 (List.getElem?_mem he1) hidx
    · intro h0
      rw [hst] at h0
      cases h0

/-- Instance of C11: for the networks of ranges `[0, 1]` and `[2, 3]` and the query
`(1/2, 10)` the call returns `0`, the map and the query vector are unchanged and network 1,
which does not pass the range test, is unchanged. -/
theorem PredictANN_unchanged_parts_witness :
    ∃ mem1, PredictANN exactOps (memAB (su2double.fin (1 / 2)) (su2double.fin 10)) =
        some (mem1, 0) ∧
      mem1.input_output_map = mapAB ∧
      mem1.inputs = [su2double.fin (1 / 2), su2double.fin 10] ∧
      mem1.NeuralNetworks[1]? = some netB := by
  have heq := ieee_memAB_returns exactOps (su2double.fin (1 / 2)) (su2double.fin 10)
    (by decide!)
  obtain ⟨c1, c2, _, _, _, _, _, c8⟩ := (PredictANN_unchanged_parts exactOps
    (memAB (su2double.fin (1 / 2)) (su2double.fin 10)) (ieee_memAB_wellFormed _ _)).1 _ 0 heq
  refine ⟨_, heq, c1, c2, ?_⟩
  rw [c8 rfl 1 ?_]
  · rfl
  · intro k e he hidx hp
    rw [ieee_memAB_passes] at hp
    rcases hp with ⟨hk, _⟩ | ⟨_, h⟩
    · subst hk
      cases he
      cases hidx
    · revert h
      decide!

/-- C11 refuted as stated: for the networks of ranges `[0, 1]` and `[2, 3]` and the query
`(1/2, 10)`, network 0 holds no cached outputs before the call; the call returns `0` and
network 0 then holds the cached outputs `[1/2]` of its evaluation, whatever the
arithmetic. -/
theorem PredictANN_changes_cached_outputs :
    (memAB (su2double.fin (1 / 2)) (su2double.fin 10)).NeuralNetworks[0]? = some netA ∧
    netA.ANN_outputs = [] ∧
    ∀ ops : su2ops, ∃ mem1 b,
      PredictANN ops (memAB (su2double.fin (1 / 2)) (su2double.fin 10)) = some (mem1, 0) ∧
      mem1.NeuralNetworks[0]? = some b ∧ b.ANN_outputs = [su2double.fin (1 / 2)] := by
  refine ⟨rfl, rfl, ?_⟩
  intro ops
  have hA : passesB [(su2double.fin (1 / 2), su2double.fin 0, su2double.fin 1)] = true := by
    decide!
  have hB : passesB [(su2double.fin 10, su2double.fin 2, su2double.fin 3)] = false := by
    decide!
  have hs := ieee_memAB_scan ops (su2double.fin (1 / 2)) (su2double.fin 10)
  rw [hA, hB] at hs
  refine ⟨_, netA.Predict [su2double.fin (1 / 2)],
    ieee_memAB_returns ops _ _ hA, ?_, rfl⟩
  rw [hs]
  rfl

/-! ## C12: an output written by a network outside its ranges -/

/-- C12: there are loaded networks, a map and a query such that one network (entry `k`)
does not have its gathered inputs inside its ranges, another network has, the call returns
`0` whatever the arithmetic, and the output slot `j`, which only entry `k` maps and which
held another value, holds after the call the prediction `v` of the network of entry `k`,
while slot `j0` holds the prediction `v0` of the network that is inside its ranges. -/
theorem exists_output_of_network_outside_range :
    ∃ (mem : Memory) (k j : Nat) (e : IOMapEntry) (net : CNeuralNetwork)
      (xs : List su2double) (p : Nat × Nat) (v : su2double),
      WellFormed mem ∧ EntryData mem k e net xs ∧ ¬ InsideRange net.input_norm xs ∧
      p ∈ e.Output_Map ∧ p.1 = j ∧ (net.forward xs)[p.2]? = some v ∧
      mem.outputs[j]? ≠ some v ∧
      (∀ (k1 : Nat) (e1 : IOMapEntry), mem.input_output_map[k1]? = some e1 →
        (∃ q ∈ e1.Output_Map, q.1 = j) → k1 = k) ∧
      ∃ (k0 j0 : Nat) (e0 : IOMapEntry) (net0 : CNeuralNetwork) (xs0 : List su2double)
        (p0 : Nat × Nat) (v0 : su2double),
        EntryData mem k0 e0 net0 xs0 ∧ InsideRange net0.input_norm xs0 ∧
        p0 ∈ e0.Output_Map ∧ p0.1 = j0 ∧ (net0.forward xs0)[p0.2]? = some v0 ∧
        ∀ ops : su2ops, ∃ mem1, PredictANN ops mem = some (mem1, 0) ∧
          mem1.outputs[j]? = some v ∧ mem1.outputs[j0]? = some v0 := by
  have hA : passesB [(su2double.fin (1 / 2), su2double.fin 0, su2double.fin 1)] = true := by
    decide!
  have hB : passesB [(su2double.nan, su2double.fin 2, su2double.fin 3)] = true := rfl
  refine ⟨memAB (su2double.fin (1 / 2)) su2double.nan, 1, 1,
    { MLP_index := 1, Input_Map := [(1, 0)], Output_Map := [(1, 0)] }, netB,
    [su2double.nan], (1, 0), su2double.fin 42, ieee_memAB_wellFormed _ _, ⟨rfl, rfl, rfl⟩,
    ?_, by simp, rfl, rfl, ?_, ?_, 0, 0,
    { MLP_index := 0, Input_Map := [(0, 0)], Output_Map := [(0, 0)] }, netA,
    [su2double.fin (1 / 2)], (0, 0), su2double.fin (1 / 2), ⟨rfl, rfl, rfl⟩, ?_, by simp,
    rfl, rfl, ?_⟩
  · intro h
    have h0 := h 0 su2double.nan (su2double.fin 2, su2double.fin 3) rfl rfl
    simp [su2double.le] at h0
  · simp [memAB]
  · intro k1 e1 he1 hq
    match k1, he1 with
    | 0, he1 =>
      simp only [memAB, mapAB, List.getElem?_cons_zero, Option.some.injEq] at he1
      subst he1
      simp at hq
    | 1, _ => rfl
    | k + 2, he1 => simp [memAB, mapAB] at he1
  · intro i x lim hx hlim
    cases i with
    | zero =>
      simp only [netA, List.getElem?_cons_zero, Option.some.injEq] at hx hlim
      subst hx hlim
      constructor
      · simp [su2double.le]
      · simp only [su2double.le, decide_eq_true_eq]
        norm_num
    | succ i => simp at hx
  · intro ops
    have hs := ieee_memAB_scan ops (su2double.fin (1 / 2)) su2double.nan
    rw [hA, hB] at hs
    refine ⟨_, ieee_memAB_returns ops _ _ hA, ?_, ?_⟩
    · rw [hs]
      rfl
    · rw [hs]
      rfl

end IEEE

end MLPToolbox
